import Mathlib

set_option maxHeartbeats 1000000

/-!
Shallow embedding of the ST-DBSCAN clustering engine of `algo3/st_dbscan.py`
(dataclass `STPoint`, class `STDBSCAN`), and proofs of the specification's
claims about it.  Python floats are modelled as real numbers; the engine's
in-place mutation of the `cluster` field of its points is modelled by
explicit state passing over the point list.
-/

noncomputable section

/-- The spatio-temporal data point of `st_dbscan.py` (dataclass `STPoint`):
an id, latitude and longitude in degrees, a time coordinate, a payload
value, and the mutable cluster label (-1 unclassified, 0 noise, 1.. cluster ids). -/
structure STPoint where
  id : Int
  lat : ℝ
  lon : ℝ
  time : ℝ
  value : ℝ
  cluster : Int

/-- Degrees to radians, as `np.radians`. -/
def radians (x : ℝ) : ℝ := x * Real.pi / 180

/-- Two-argument arctangent with the quadrant conventions of `np.arctan2`. -/
def arctan2 (y x : ℝ) : ℝ :=
  if 0 < x then Real.arctan (y / x)
  else if x < 0 then
    (if 0 ≤ y then Real.arctan (y / x) + Real.pi else Real.arctan (y / x) - Real.pi)
  else
    (if 0 < y then Real.pi / 2 else if y < 0 then -(Real.pi / 2) else 0)

/-- Great-circle distance in km between two (lat, lon) pairs: the haversine
formula on a sphere of radius 6371.0 km, exactly as in
`STDBSCAN.haversine_distance`. -/
def haversine_distance (lat1 lon1 lat2 lon2 : ℝ) : ℝ :=
  let R : ℝ := 6371.0
  let lat1_rad := radians lat1
  let lat2_rad := radians lat2
  let dlon := radians (lon2 - lon1)
  let dlat := radians (lat2 - lat1)
  let a := Real.sin (dlat / 2) ^ 2 +
    Real.cos lat1_rad * Real.cos lat2_rad * Real.sin (dlon / 2) ^ 2
  let c := 2 * arctan2 (Real.sqrt a) (Real.sqrt (1 - a))
  R * c

/-- `STDBSCAN.temporal_distance`: absolute difference of two time coordinates. -/
def temporal_distance (time1 time2 : ℝ) : ℝ := |time1 - time2|

/-- The clustering engine state: the three constructor parameters `eps1`
(spatial radius, km), `eps2` (temporal radius) and `min_pts`, together with
the two mutable attributes `points` and `cluster_id`. -/
structure STDBSCAN where
  eps1 : ℝ
  eps2 : ℝ
  min_pts : Int
  points : List STPoint
  cluster_id : ℕ

/-- The constructor `STDBSCAN.__init__`: it stores the three parameters and
starts with an empty point list and cluster counter 0; no validation of the
parameters is performed. -/
def STDBSCAN.init (eps1 eps2 : ℝ) (min_pts : Int) : STDBSCAN :=
  { eps1 := eps1, eps2 := eps2, min_pts := min_pts, points := [], cluster_id := 0 }

/-- Default point used to totalize list indexing.  The Python code never
indexes out of range: every index it touches comes from `enumerate` over the
point list, so the default is never observable in the claims below. -/
def dfltPoint : STPoint := ⟨0, 0, 0, 0, 0, 0⟩

/-- Cluster label of point `i` (label 0 when `i` is out of range). -/
def getCluster (pts : List STPoint) (i : ℕ) : Int := (pts.getD i dfltPoint).cluster

/-- Time coordinate of point `i`. -/
def timeOf (pts : List STPoint) (i : ℕ) : ℝ := (pts.getD i dfltPoint).time

/-- The in-place assignment `self.points[i].cluster = c`. -/
def updateCluster : List STPoint → ℕ → Int → List STPoint
  | [], _, _ => []
  | p :: rest, 0, c => { p with cluster := c } :: rest
  | p :: rest, i + 1, c => p :: updateCluster rest i c

/-- A point with its cluster label forgotten: two lists with the same image
under this map agree everywhere except possibly in the cluster labels. -/
def stripCluster (p : STPoint) : STPoint := { p with cluster := 0 }

theorem length_updateCluster (pts : List STPoint) (i : ℕ) (c : Int) :
    (updateCluster pts i c).length = pts.length := by
  induction pts generalizing i with
  | nil => rfl
  | cons p rest ih =>
    cases i with
    | zero => rfl
    | succ j => simpa [updateCluster] using ih j

theorem updateCluster_of_le (pts : List STPoint) (i : ℕ) (c : Int)
    (h : pts.length ≤ i) : updateCluster pts i c = pts := by
  induction pts generalizing i with
  | nil => rfl
  | cons p rest ih =>
    cases i with
    | zero => simp at h
    | succ j =>
      simp only [List.length_cons, Nat.succ_le_succ_iff] at h
      simp [updateCluster, ih j h]

theorem getCluster_updateCluster_self (pts : List STPoint) (i : ℕ) (c : Int)
    (h : i < pts.length) : getCluster (updateCluster pts i c) i = c := by
  induction pts generalizing i with
  | nil => simp at h
  | cons p rest ih =>
    cases i with
    | zero => rfl
    | succ j =>
      simp only [List.length_cons, Nat.succ_lt_succ_iff] at h
      simpa [updateCluster, getCluster] using ih j h

theorem getCluster_updateCluster_ne (pts : List STPoint) (i j : ℕ) (c : Int)
    (h : j ≠ i) : getCluster (updateCluster pts i c) j = getCluster pts j := by
  induction pts generalizing i j with
  | nil => rfl
  | cons p rest ih =>
    cases i with
    | zero =>
      cases j with
      | zero => exact absurd rfl h
      | succ k => rfl
    | succ i0 =>
      cases j with
      | zero => rfl
      | succ k =>
        have hk : k ≠ i0 := fun he => h (by simp [he])
        simpa [updateCluster, getCluster] using ih i0 k hk

theorem map_stripCluster_updateCluster (pts : List STPoint) (i : ℕ) (c : Int) :
    (updateCluster pts i c).map stripCluster = pts.map stripCluster := by
  induction pts generalizing i with
  | nil => rfl
  | cons p rest ih =>
    cases i with
    | zero => simp [updateCluster, stripCluster]
    | succ j => simp [updateCluster, ih j]

theorem lt_length_of_getCluster_ne_zero (pts : List STPoint) (i : ℕ)
    (h : getCluster pts i ≠ 0) : i < pts.length := by
  by_contra hge
  push_neg at hge
  apply h
  simp [getCluster, List.getD_eq_getElem?_getD, List.getElem?_eq_none hge, dfltPoint]

/-- Number of still unclassified points, the termination measure of the
breadth-first expansion loop. -/
def countUnclassified (pts : List STPoint) : ℕ :=
  pts.countP (fun p => p.cluster == -1)

theorem countUnclassified_cons (p : STPoint) (rest : List STPoint) :
    countUnclassified (p :: rest) =
      countUnclassified rest + (if p.cluster = -1 then 1 else 0) := by
  simp [countUnclassified, List.countP_cons]

theorem countUnclassified_updateCluster_le (pts : List STPoint) (i : ℕ) (c : Int)
    (hc : c ≠ -1) : countUnclassified (updateCluster pts i c) ≤ countUnclassified pts := by
  induction pts generalizing i with
  | nil => exact Nat.le_refl _
  | cons p rest ih =>
    cases i with
    | zero =>
      rw [show updateCluster (p :: rest) 0 c = { p with cluster := c } :: rest from rfl,
        countUnclassified_cons, countUnclassified_cons]
      by_cases hp : p.cluster = -1 <;> simp [hp, hc]
    | succ j =>
      rw [show updateCluster (p :: rest) (j + 1) c = p :: updateCluster rest j c from rfl,
        countUnclassified_cons, countUnclassified_cons]
      have := ih j
      omega

theorem countUnclassified_updateCluster_lt (pts : List STPoint) (i : ℕ) (c : Int)
    (hc : c ≠ -1) (hi : getCluster pts i = -1) :
    countUnclassified (updateCluster pts i c) < countUnclassified pts := by
  induction pts generalizing i with
  | nil => simp [getCluster, dfltPoint] at hi
  | cons p rest ih =>
    cases i with
    | zero =>
      have hp : p.cluster = -1 := hi
      rw [show updateCluster (p :: rest) 0 c = { p with cluster := c } :: rest from rfl,
        countUnclassified_cons, countUnclassified_cons]
      simp [hp, hc]
    | succ j =>
      have hj : getCluster rest j = -1 := hi
      rw [show updateCluster (p :: rest) (j + 1) c = p :: updateCluster rest j c from rfl,
        countUnclassified_cons, countUnclassified_cons]
      have := ih j hj
      omega

theorem countUnclassified_updateCluster_eq (pts : List STPoint) (i : ℕ) (c : Int)
    (hc : c ≠ -1) (hi : getCluster pts i ≠ -1) :
    countUnclassified (updateCluster pts i c) = countUnclassified pts := by
  induction pts generalizing i with
  | nil => rfl
  | cons p rest ih =>
    cases i with
    | zero =>
      have hp : p.cluster ≠ -1 := hi
      rw [show updateCluster (p :: rest) 0 c = { p with cluster := c } :: rest from rfl,
        countUnclassified_cons, countUnclassified_cons]
      simp [hp, hc]
    | succ j =>
      have hj : getCluster rest j ≠ -1 := hi
      rw [show updateCluster (p :: rest) (j + 1) c = p :: updateCluster rest j c from rfl,
        countUnclassified_cons, countUnclassified_cons]
      have := ih j hj
      omega

/-- The scanning loop of `STDBSCAN.get_neighbors`: walk the point list with a
running index, skip the center's own index, and keep every index whose
spatial distance is within `eps1` and whose temporal distance is within
`eps2` (both conditions conjointly). -/
def neighborsGo (eps1 eps2 : ℝ) (center : STPoint) (point_id : ℕ) :
    ℕ → List STPoint → List ℕ
  | _, [] => []
  | i, p :: rest =>
    if i = point_id then neighborsGo eps1 eps2 center point_id (i + 1) rest
    else if haversine_distance center.lat center.lon p.lat p.lon ≤ eps1 ∧
        temporal_distance center.time p.time ≤ eps2 then
      i :: neighborsGo eps1 eps2 center point_id (i + 1) rest
    else neighborsGo eps1 eps2 center point_id (i + 1) rest

/-- The neighborhood query over an explicit point list: the body of
`STDBSCAN.get_neighbors`, needed standalone because the expansion loop calls
it on the currently mutated point list. -/
def getNeighborsAux (eps1 eps2 : ℝ) (pts : List STPoint) (point_id : ℕ) : List ℕ :=
  neighborsGo eps1 eps2 (pts.getD point_id dfltPoint) point_id 0 pts

/-- `STDBSCAN.get_neighbors`: the spatio-temporal neighborhood of
`points[point_id]`, as the list of indices of all other points within both
thresholds. -/
def STDBSCAN.get_neighbors (st : STDBSCAN) (point_id : ℕ) : List ℕ :=
  getNeighborsAux st.eps1 st.eps2 st.points point_id

/-- The while-loop of `STDBSCAN.expand_cluster`: pop an index from the work
queue; if it is noise, absorb it into the current cluster; if it is
unclassified, label it, query its own neighborhood and, when that makes it a
core point, push its still unclassified neighbors onto the queue.  The loop
terminates because processing an unclassified point strictly decreases the
number of unclassified points and every other step shrinks the queue. -/
def expandLoop (eps1 eps2 : ℝ) (min_pts : Int) (cid : ℕ) :
    List STPoint → List ℕ → List STPoint
  | pts, [] => pts
  | pts, current :: rest =>
    let pts1 :=
      if getCluster pts current = 0 then updateCluster pts current (cid : Int) else pts
    if h1 : getCluster pts1 current = -1 then
      let pts2 := updateCluster pts1 current (cid : Int)
      let nbrs := getNeighborsAux eps1 eps2 pts2 current
      if min_pts ≤ (nbrs.length : Int) then
        expandLoop eps1 eps2 min_pts cid pts2
          (rest ++ nbrs.filter (fun j => getCluster pts2 j = -1))
      else expandLoop eps1 eps2 min_pts cid pts2 rest
    else expandLoop eps1 eps2 min_pts cid pts1 rest
termination_by pts queue => (countUnclassified pts, queue.length)
decreasing_by
  · have hcast : ((cid : ℕ) : Int) ≠ -1 := by omega
    unfold pts1 at h1
    by_cases h0 : getCluster pts current = 0
    · exfalso
      rw [dif_pos h0] at h1
      by_cases hlt : current < pts.length
      · rw [getCluster_updateCluster_self pts current _ hlt] at h1
        exact hcast h1
      · rw [updateCluster_of_le pts current _ (Nat.le_of_not_lt hlt), h0] at h1
        exact absurd h1 (by decide)
    · rw [dif_neg h0] at h1
      simp only [dif_neg h0]
      exact Prod.Lex.left _ _ (countUnclassified_updateCluster_lt pts current _ hcast h1)
  · have hcast : ((cid : ℕ) : Int) ≠ -1 := by omega
    unfold pts1 at h1
    by_cases h0 : getCluster pts current = 0
    · exfalso
      rw [dif_pos h0] at h1
      by_cases hlt : current < pts.length
      · rw [getCluster_updateCluster_self pts current _ hlt] at h1
        exact hcast h1
      · rw [updateCluster_of_le pts current _ (Nat.le_of_not_lt hlt), h0] at h1
        exact absurd h1 (by decide)
    · rw [dif_neg h0] at h1
      simp only [dif_neg h0]
      exact Prod.Lex.left _ _ (countUnclassified_updateCluster_lt pts current _ hcast h1)
  · have hcast : ((cid : ℕ) : Int) ≠ -1 := by omega
    by_cases h0 : getCluster pts current = 0
    · simp only [dif_pos h0]
      rw [countUnclassified_updateCluster_eq pts current _ hcast (by rw [h0]; decide)]
      exact Prod.Lex.right _ (by simp)
    · simp only [dif_neg h0]
      exact Prod.Lex.right _ (by simp)

/-- `STDBSCAN.expand_cluster`: allocate a fresh cluster id, assign it to the
seed point and run the breadth-first expansion with the seed's neighborhood
as the initial work queue. -/
def STDBSCAN.expand_cluster (st : STDBSCAN) (point_id : ℕ) (neighbors : List ℕ) :
    STDBSCAN :=
  { st with
    cluster_id := st.cluster_id + 1,
    points := expandLoop st.eps1 st.eps2 st.min_pts (st.cluster_id + 1)
      (updateCluster st.points point_id ((st.cluster_id + 1 : ℕ) : Int)) neighbors }

/-- The body of the main loop of `STDBSCAN.fit` at index `i`: skip an already
classified point, otherwise query its neighborhood and either mark it noise
or start a new cluster expansion. -/
def fitStep (st : STDBSCAN) (i : ℕ) : STDBSCAN :=
  if getCluster st.points i ≠ -1 then st
  else
    let neighbors := st.get_neighbors i
    if (neighbors.length : Int) < st.min_pts then
      { st with points := updateCluster st.points i 0 }
    else st.expand_cluster i neighbors

/-- The main loop of `STDBSCAN.fit` over the indices `0, ..., n - 1`, where
`n` is the length of the point list at entry (the in-place label mutation
never changes the length). -/
def fitLoop (n : ℕ) (st : STDBSCAN) (i : ℕ) : STDBSCAN :=
  if h : i < n then fitLoop n (fitStep st i) (i + 1) else st
termination_by n - i

/-- `STDBSCAN.fit`: store the data, reset the cluster counter to 0, reset
every label to unclassified (-1), then run the main classification loop. -/
def STDBSCAN.fit (st : STDBSCAN) (data : List STPoint) : STDBSCAN :=
  let st1 : STDBSCAN :=
    { st with points := data.map (fun p => { p with cluster := -1 }), cluster_id := 0 }
  fitLoop st1.points.length st1 0

/-- Append index `i` to the bucket of label `c`: the dictionary update of
`STDBSCAN.get_clusters`. -/
def clustersInsert : List (Int × List ℕ) → Int → ℕ → List (Int × List ℕ)
  | [], c, i => [(c, [i])]
  | (c0, l) :: rest, c, i =>
    if c0 = c then (c0, l ++ [i]) :: rest
    else (c0, l) :: clustersInsert rest c i

/-- The loop of `STDBSCAN.get_clusters`: bucket the point indices by label. -/
def clustersGo : List STPoint → ℕ → List (Int × List ℕ) → List (Int × List ℕ)
  | [], _, acc => acc
  | p :: rest, i, acc => clustersGo rest (i + 1) (clustersInsert acc p.cluster i)

/-- `STDBSCAN.get_clusters`: the mapping from each occurring cluster label to
the list of point indices carrying it, as an association list in insertion
order (the Python dict). -/
def STDBSCAN.get_clusters (st : STDBSCAN) : List (Int × List ℕ) :=
  clustersGo st.points 0 []

/-- Index `j` lies in the bucket of label `c` of the association list. -/
def entryMem (acc : List (Int × List ℕ)) (c : Int) (j : ℕ) : Prop :=
  ∃ l, (c, l) ∈ acc ∧ j ∈ l

theorem getCluster_updateCluster_cases (pts : List STPoint) (i j : ℕ) (c : Int) :
    getCluster (updateCluster pts i c) j = getCluster pts j ∨
      getCluster (updateCluster pts i c) j = c := by
  by_cases hj : j = i
  · subst hj
    by_cases hlt : j < pts.length
    · exact Or.inr (getCluster_updateCluster_self pts j c hlt)
    · rw [updateCluster_of_le pts j c (Nat.le_of_not_lt hlt)]
      exact Or.inl rfl
  · exact Or.inl (getCluster_updateCluster_ne pts i j c hj)

theorem neighborsGo_cons (eps1 eps2 : ℝ) (center p : STPoint) (point_id i0 : ℕ)
    (rest : List STPoint) :
    neighborsGo eps1 eps2 center point_id i0 (p :: rest) =
      if i0 = point_id then neighborsGo eps1 eps2 center point_id (i0 + 1) rest
      else if haversine_distance center.lat center.lon p.lat p.lon ≤ eps1 ∧
          temporal_distance center.time p.time ≤ eps2 then
        i0 :: neighborsGo eps1 eps2 center point_id (i0 + 1) rest
      else neighborsGo eps1 eps2 center point_id (i0 + 1) rest := rfl

theorem mem_neighborsGo (eps1 eps2 : ℝ) (center : STPoint) (point_id : ℕ)
    (l : List STPoint) : ∀ (i0 j : ℕ),
    j ∈ neighborsGo eps1 eps2 center point_id i0 l ↔
      ∃ k, k < l.length ∧ j = i0 + k ∧ j ≠ point_id ∧
        haversine_distance center.lat center.lon (l.getD k dfltPoint).lat
          (l.getD k dfltPoint).lon ≤ eps1 ∧
        temporal_distance center.time (l.getD k dfltPoint).time ≤ eps2 := by
  induction l with
  | nil => intro i0 j; simp [neighborsGo]
  | cons p rest ih =>
    intro i0 j
    rw [neighborsGo_cons]
    split_ifs with hskip hcond
    · rw [ih]
      constructor
      · rintro ⟨k, hk, rfl, hne, hc⟩
        refine ⟨k + 1, by simpa using Nat.succ_lt_succ hk, by omega, hne, ?_⟩
        simpa using hc
      · rintro ⟨k, hk, rfl, hne, hc⟩
        cases k with
        | zero => exact absurd hskip (by simpa using hne)
        | succ k0 =>
          refine ⟨k0, by simpa using Nat.lt_of_succ_lt_succ hk, by omega, hne, ?_⟩
          simpa using hc
    · constructor
      · intro hmem
        rcases List.mem_cons.mp hmem with rfl | hmem0
        · exact ⟨0, by simp, by simp, hskip, by simpa using hcond.1, by simpa using hcond.2⟩
        · rcases (ih (i0 + 1) j).mp hmem0 with ⟨k, hk, rfl, hne, hc⟩
          refine ⟨k + 1, by simpa using Nat.succ_lt_succ hk, by omega, hne, ?_⟩
          simpa using hc
      · rintro ⟨k, hk, rfl, hne, hc⟩
        cases k with
        | zero => exact List.mem_cons_self _ _
        | succ k0 =>
          refine List.mem_cons_of_mem _ ((ih (i0 + 1) (i0 + (k0 + 1))).mpr ?_)
          exact ⟨k0, by simpa using Nat.lt_of_succ_lt_succ hk, by omega, hne, by simpa using hc⟩
    · rw [ih]
      constructor
      · rintro ⟨k, hk, rfl, hne, hc⟩
        refine ⟨k + 1, by simpa using Nat.succ_lt_succ hk, by omega, hne, ?_⟩
        simpa using hc
      · rintro ⟨k, hk, rfl, hne, hc⟩
        cases k with
        | zero =>
          exfalso
          exact hcond ⟨by simpa using hc.1, by simpa using hc.2⟩
        | succ k0 =>
          refine ⟨k0, by simpa using Nat.lt_of_succ_lt_succ hk, by omega, hne, ?_⟩
          simpa using hc

theorem mem_getNeighborsAux (eps1 eps2 : ℝ) (pts : List STPoint) (point_id j : ℕ) :
    j ∈ getNeighborsAux eps1 eps2 pts point_id ↔
      j < pts.length ∧ j ≠ point_id ∧
        haversine_distance (pts.getD point_id dfltPoint).lat
          (pts.getD point_id dfltPoint).lon
          (pts.getD j dfltPoint).lat (pts.getD j dfltPoint).lon ≤ eps1 ∧
        temporal_distance (pts.getD point_id dfltPoint).time
          (pts.getD j dfltPoint).time ≤ eps2 := by
  rw [getNeighborsAux, mem_neighborsGo]
  constructor
  · rintro ⟨k, hk, rfl, hne, hc1, hc2⟩
    exact ⟨by simpa using hk, by simpa using hne, by simpa using hc1, by simpa using hc2⟩
  · rintro ⟨hj, hne, hc1, hc2⟩
    exact ⟨j, hj, by omega, hne, hc1, hc2⟩

theorem mem_get_neighbors (st : STDBSCAN) (point_id j : ℕ) :
    j ∈ st.get_neighbors point_id ↔
      j < st.points.length ∧ j ≠ point_id ∧
        haversine_distance (st.points.getD point_id dfltPoint).lat
          (st.points.getD point_id dfltPoint).lon
          (st.points.getD j dfltPoint).lat (st.points.getD j dfltPoint).lon ≤ st.eps1 ∧
        temporal_distance (st.points.getD point_id dfltPoint).time
          (st.points.getD j dfltPoint).time ≤ st.eps2 :=
  mem_getNeighborsAux st.eps1 st.eps2 st.points point_id j

theorem neighborsGo_sublist (eps1 eps2 : ℝ) (center : STPoint) (point_id : ℕ)
    (l : List STPoint) : ∀ i0 : ℕ,
    (neighborsGo eps1 eps2 center point_id i0 l).Sublist
      ((List.range' i0 l.length).filter (fun x => x ≠ point_id)) := by
  induction l with
  | nil => intro i0; simp [neighborsGo]
  | cons p rest ih =>
    intro i0
    rw [neighborsGo_cons, show (p :: rest).length = rest.length + 1 from rfl,
      List.range'_succ]
    split_ifs with hskip hcond
    · rw [List.filter_cons_of_neg (by simpa using hskip)]
      exact ih (i0 + 1)
    · rw [List.filter_cons_of_pos (by simpa using hskip)]
      exact List.Sublist.cons₂ i0 (ih (i0 + 1))
    · by_cases hskip2 : (i0 = point_id)
      · rw [List.filter_cons_of_neg (by simpa using hskip2)]
        exact ih (i0 + 1)
      · rw [List.filter_cons_of_pos (by simpa using hskip2)]
        exact List.Sublist.cons i0 (ih (i0 + 1))

theorem getNeighborsAux_length_lt (eps1 eps2 : ℝ) (pts : List STPoint) (point_id : ℕ)
    (h : point_id < pts.length) :
    (getNeighborsAux eps1 eps2 pts point_id).length < pts.length := by
  have hsub := neighborsGo_sublist eps1 eps2 (pts.getD point_id dfltPoint)
    point_id pts 0
  have hle : (getNeighborsAux eps1 eps2 pts point_id).length ≤
      ((List.range' 0 pts.length).filter (fun x => x ≠ point_id)).length :=
    hsub.length_le
  have hfil : ((List.range' 0 pts.length).filter (fun x => x ≠ point_id)).Sublist
      (List.range' 0 pts.length) := List.filter_sublist _
  rcases Nat.lt_or_ge ((List.range' 0 pts.length).filter
      (fun x => x ≠ point_id)).length pts.length with hlt | hge
  · exact Nat.lt_of_le_of_lt hle hlt
  · exfalso
    have hlen : ((List.range' 0 pts.length).filter (fun x => x ≠ point_id)).length =
        (List.range' 0 pts.length).length := by
      have := hfil.length_le
      simp only [List.length_range'] at this ⊢
      omega
    have heq := hfil.eq_of_length hlen
    have hmem : point_id ∈ (List.range' 0 pts.length).filter
        (fun x => x ≠ point_id) := by
      rw [heq]
      simp [List.mem_range']
      omega
    simp at hmem

theorem get_neighbors_length_lt (st : STDBSCAN) (point_id : ℕ)
    (h : point_id < st.points.length) :
    (st.get_neighbors point_id).length < st.points.length :=
  getNeighborsAux_length_lt st.eps1 st.eps2 st.points point_id h

theorem expandLoop_nil (eps1 eps2 : ℝ) (min_pts : Int) (cid : ℕ) (pts : List STPoint) :
    expandLoop eps1 eps2 min_pts cid pts [] = pts := by
  simp [expandLoop]

theorem expandLoop_noise_step (eps1 eps2 : ℝ) (min_pts : Int) (cid : ℕ)
    (pts : List STPoint) (current : ℕ) (rest : List ℕ)
    (h0 : getCluster pts current = 0) :
    expandLoop eps1 eps2 min_pts cid pts (current :: rest) =
      expandLoop eps1 eps2 min_pts cid (updateCluster pts current (cid : Int)) rest := by
  have hne : getCluster (updateCluster pts current (cid : Int)) current ≠ -1 := by
    by_cases hlt : current < pts.length
    · rw [getCluster_updateCluster_self pts current _ hlt]
      omega
    · rw [updateCluster_of_le pts current _ (Nat.le_of_not_lt hlt), h0]
      decide
  rw [expandLoop.eq_def]
  simp only [if_pos h0, dif_neg hne]

theorem expandLoop_skip_step (eps1 eps2 : ℝ) (min_pts : Int) (cid : ℕ)
    (pts : List STPoint) (current : ℕ) (rest : List ℕ)
    (h0 : getCluster pts current ≠ 0) (h1 : getCluster pts current ≠ -1) :
    expandLoop eps1 eps2 min_pts cid pts (current :: rest) =
      expandLoop eps1 eps2 min_pts cid pts rest := by
  rw [expandLoop.eq_def]
  simp only [if_neg h0, dif_neg h1]

theorem expandLoop_core_step (eps1 eps2 : ℝ) (min_pts : Int) (cid : ℕ)
    (pts : List STPoint) (current : ℕ) (rest : List ℕ)
    (h1 : getCluster pts current = -1)
    (hcore : min_pts ≤
      ((getNeighborsAux eps1 eps2 (updateCluster pts current (cid : Int)) current).length :
        Int)) :
    expandLoop eps1 eps2 min_pts cid pts (current :: rest) =
      expandLoop eps1 eps2 min_pts cid (updateCluster pts current (cid : Int))
        (rest ++ (getNeighborsAux eps1 eps2 (updateCluster pts current (cid : Int))
          current).filter
            (fun j => getCluster (updateCluster pts current (cid : Int)) j = -1)) := by
  have h0 : ¬ getCluster pts current = 0 := by rw [h1]; decide
  rw [expandLoop.eq_def]
  simp only [if_neg h0, dif_pos h1, if_pos hcore]

theorem expandLoop_border_step (eps1 eps2 : ℝ) (min_pts : Int) (cid : ℕ)
    (pts : List STPoint) (current : ℕ) (rest : List ℕ)
    (h1 : getCluster pts current = -1)
    (hcore : ¬ min_pts ≤
      ((getNeighborsAux eps1 eps2 (updateCluster pts current (cid : Int)) current).length :
        Int)) :
    expandLoop eps1 eps2 min_pts cid pts (current :: rest) =
      expandLoop eps1 eps2 min_pts cid (updateCluster pts current (cid : Int)) rest := by
  have h0 : ¬ getCluster pts current = 0 := by rw [h1]; decide
  rw [expandLoop.eq_def]
  simp only [if_neg h0, dif_pos h1, if_neg hcore]

theorem expandLoop_rec (eps1 eps2 : ℝ) (min_pts : Int) (cid : ℕ)
    (P : List STPoint → List ℕ → Prop)
    (hnil : ∀ pts, P pts [])
    (hnoise : ∀ pts current rest, getCluster pts current = 0 →
      P (updateCluster pts current (cid : Int)) rest → P pts (current :: rest))
    (hskip : ∀ pts current rest, getCluster pts current ≠ 0 →
      getCluster pts current ≠ -1 → P pts rest → P pts (current :: rest))
    (hcore : ∀ pts current rest, getCluster pts current = -1 →
      min_pts ≤ ((getNeighborsAux eps1 eps2 (updateCluster pts current (cid : Int))
        current).length : Int) →
      P (updateCluster pts current (cid : Int))
        (rest ++ (getNeighborsAux eps1 eps2 (updateCluster pts current (cid : Int))
          current).filter
            (fun j => getCluster (updateCluster pts current (cid : Int)) j = -1)) →
      P pts (current :: rest))
    (hborder : ∀ pts current rest, getCluster pts current = -1 →
      ¬ min_pts ≤ ((getNeighborsAux eps1 eps2 (updateCluster pts current (cid : Int))
        current).length : Int) →
      P (updateCluster pts current (cid : Int)) rest → P pts (current :: rest)) :
    ∀ (pts : List STPoint) (queue : List ℕ), P pts queue := by
  intro pts queue
  induction pts, queue using expandLoop.induct eps1 eps2 min_pts cid with
  | case1 pts => exact hnil pts
  | case2 pts current rest pts1 h1 pts2 nbrs hmp ih =>
    by_cases h0 : getCluster pts current = 0
    · exfalso
      unfold pts1 at h1
      rw [dif_pos h0] at h1
      by_cases hlt : current < pts.length
      · rw [getCluster_updateCluster_self pts current _ hlt] at h1
        omega
      · rw [updateCluster_of_le pts current _ (Nat.le_of_not_lt hlt), h0] at h1
        exact absurd h1 (by decide)
    · unfold pts1 at h1
      simp only [dif_neg h0] at h1
      unfold nbrs pts2 pts1 at hmp
      simp only [dif_neg h0] at hmp
      unfold nbrs pts2 pts1 at ih
      simp only [dif_neg h0] at ih
      exact hcore pts current rest h1 hmp ih
  | case3 pts current rest pts1 h1 pts2 nbrs hmp ih =>
    by_cases h0 : getCluster pts current = 0
    · exfalso
      unfold pts1 at h1
      rw [dif_pos h0] at h1
      by_cases hlt : current < pts.length
      · rw [getCluster_updateCluster_self pts current _ hlt] at h1
        omega
      · rw [updateCluster_of_le pts current _ (Nat.le_of_not_lt hlt), h0] at h1
        exact absurd h1 (by decide)
    · unfold pts1 at h1
      simp only [dif_neg h0] at h1
      unfold nbrs pts2 pts1 at hmp
      simp only [dif_neg h0] at hmp
      unfold pts2 pts1 at ih
      simp only [dif_neg h0] at ih
      exact hborder pts current rest h1 hmp ih
  | case4 pts current rest pts1 h1 ih =>
    by_cases h0 : getCluster pts current = 0
    · unfold pts1 at ih
      simp only [dif_pos h0] at ih
      exact hnoise pts current rest h0 ih
    · unfold pts1 at h1 ih
      simp only [dif_neg h0] at h1 ih
      exact hskip pts current rest h0 h1 ih

theorem map_stripCluster_expandLoop (eps1 eps2 : ℝ) (min_pts : Int) (cid : ℕ)
    (pts : List STPoint) (queue : List ℕ) :
    (expandLoop eps1 eps2 min_pts cid pts queue).map stripCluster =
      pts.map stripCluster := by
  refine expandLoop_rec eps1 eps2 min_pts cid
    (fun pts queue => (expandLoop eps1 eps2 min_pts cid pts queue).map stripCluster =
      pts.map stripCluster) ?_ ?_ ?_ ?_ ?_ pts queue
  · intro pts
    rw [expandLoop_nil]
  · intro pts current rest h0 ih
    rw [expandLoop_noise_step _ _ _ _ _ _ _ h0, ih, map_stripCluster_updateCluster]
  · intro pts current rest h0 h1 ih
    rw [expandLoop_skip_step _ _ _ _ _ _ _ h0 h1, ih]
  · intro pts current rest h1 hc ih
    rw [expandLoop_core_step _ _ _ _ _ _ _ h1 hc, ih, map_stripCluster_updateCluster]
  · intro pts current rest h1 hc ih
    rw [expandLoop_border_step _ _ _ _ _ _ _ h1 hc, ih, map_stripCluster_updateCluster]

theorem length_expandLoop (eps1 eps2 : ℝ) (min_pts : Int) (cid : ℕ)
    (pts : List STPoint) (queue : List ℕ) :
    (expandLoop eps1 eps2 min_pts cid pts queue).length = pts.length := by
  have h := congrArg List.length
    (map_stripCluster_expandLoop eps1 eps2 min_pts cid pts queue)
  simpa using h

theorem getCluster_expandLoop (eps1 eps2 : ℝ) (min_pts : Int) (cid : ℕ)
    (pts : List STPoint) (queue : List ℕ) (j : ℕ) :
    getCluster (expandLoop eps1 eps2 min_pts cid pts queue) j = getCluster pts j ∨
      getCluster (expandLoop eps1 eps2 min_pts cid pts queue) j = (cid : Int) := by
  refine expandLoop_rec eps1 eps2 min_pts cid
    (fun pts queue => ∀ j,
      getCluster (expandLoop eps1 eps2 min_pts cid pts queue) j = getCluster pts j ∨
        getCluster (expandLoop eps1 eps2 min_pts cid pts queue) j = (cid : Int))
    ?_ ?_ ?_ ?_ ?_ pts queue j
  · intro pts j
    rw [expandLoop_nil]
    exact Or.inl rfl
  · intro pts current rest h0 ih j
    rw [expandLoop_noise_step _ _ _ _ _ _ _ h0]
    rcases ih j with h | h
    · rcases getCluster_updateCluster_cases pts current j (cid : Int) with h2 | h2
      · exact Or.inl (h.trans h2)
      · exact Or.inr (h.trans h2)
    · exact Or.inr h
  · intro pts current rest h0 h1 ih j
    rw [expandLoop_skip_step _ _ _ _ _ _ _ h0 h1]
    exact ih j
  · intro pts current rest h1 hc ih j
    rw [expandLoop_core_step _ _ _ _ _ _ _ h1 hc]
    rcases ih j with h | h
    · rcases getCluster_updateCluster_cases pts current j (cid : Int) with h2 | h2
      · exact Or.inl (h.trans h2)
      · exact Or.inr (h.trans h2)
    · exact Or.inr h
  · intro pts current rest h1 hc ih j
    rw [expandLoop_border_step _ _ _ _ _ _ _ h1 hc]
    rcases ih j with h | h
    · rcases getCluster_updateCluster_cases pts current j (cid : Int) with h2 | h2
      · exact Or.inl (h.trans h2)
      · exact Or.inr (h.trans h2)
    · exact Or.inr h

theorem getCluster_expandLoop_pos (eps1 eps2 : ℝ) (min_pts : Int) (cid : ℕ)
    (pts : List STPoint) (queue : List ℕ) (j : ℕ) (c : Int)
    (hc : 1 ≤ c) (hj : getCluster pts j = c) :
    getCluster (expandLoop eps1 eps2 min_pts cid pts queue) j = c := by
  refine expandLoop_rec eps1 eps2 min_pts cid
    (fun pts queue => ∀ j c, 1 ≤ c → getCluster pts j = c →
      getCluster (expandLoop eps1 eps2 min_pts cid pts queue) j = c)
    ?_ ?_ ?_ ?_ ?_ pts queue j c hc hj
  · intro pts j c _ hj
    rw [expandLoop_nil]
    exact hj
  · intro pts current rest h0 ih j c hc hj
    rw [expandLoop_noise_step _ _ _ _ _ _ _ h0]
    have hne : j ≠ current := by
      intro he
      rw [he, h0] at hj
      omega
    exact ih j c hc ((getCluster_updateCluster_ne pts current j _ hne).trans hj)
  · intro pts current rest h0 h1 ih j c hc hj
    rw [expandLoop_skip_step _ _ _ _ _ _ _ h0 h1]
    exact ih j c hc hj
  · intro pts current rest h1 hcr ih j c hc hj
    rw [expandLoop_core_step _ _ _ _ _ _ _ h1 hcr]
    have hne : j ≠ current := by
      intro he
      rw [he, h1] at hj
      omega
    exact ih j c hc ((getCluster_updateCluster_ne pts current j _ hne).trans hj)
  · intro pts current rest h1 hcr ih j c hc hj
    rw [expandLoop_border_step _ _ _ _ _ _ _ h1 hcr]
    have hne : j ≠ current := by
      intro he
      rw [he, h1] at hj
      omega
    exact ih j c hc ((getCluster_updateCluster_ne pts current j _ hne).trans hj)

theorem fitStep_eps1 (st : STDBSCAN) (i : ℕ) : (fitStep st i).eps1 = st.eps1 := by
  simp only [fitStep]
  split_ifs <;> simp [STDBSCAN.expand_cluster]

theorem fitStep_eps2 (st : STDBSCAN) (i : ℕ) : (fitStep st i).eps2 = st.eps2 := by
  simp only [fitStep]
  split_ifs <;> simp [STDBSCAN.expand_cluster]

theorem fitStep_min_pts (st : STDBSCAN) (i : ℕ) :
    (fitStep st i).min_pts = st.min_pts := by
  simp only [fitStep]
  split_ifs <;> simp [STDBSCAN.expand_cluster]

theorem fitStep_cluster_id_ge (st : STDBSCAN) (i : ℕ) :
    st.cluster_id ≤ (fitStep st i).cluster_id := by
  simp only [fitStep]
  split_ifs <;> simp [STDBSCAN.expand_cluster]

theorem map_stripCluster_fitStep (st : STDBSCAN) (i : ℕ) :
    (fitStep st i).points.map stripCluster = st.points.map stripCluster := by
  simp only [fitStep]
  split_ifs
  · rfl
  · exact map_stripCluster_updateCluster st.points i 0
  · simp only [STDBSCAN.expand_cluster]
    rw [map_stripCluster_expandLoop, map_stripCluster_updateCluster]

theorem length_fitStep (st : STDBSCAN) (i : ℕ) :
    (fitStep st i).points.length = st.points.length := by
  have h := congrArg List.length (map_stripCluster_fitStep st i)
  simpa using h

theorem getCluster_fitStep_cases (st : STDBSCAN) (i j : ℕ) :
    getCluster (fitStep st i).points j = getCluster st.points j ∨
      getCluster (fitStep st i).points j = 0 ∨
      getCluster (fitStep st i).points j = ((st.cluster_id + 1 : ℕ) : Int) := by
  simp only [fitStep]
  split_ifs
  · exact Or.inl rfl
  · rcases getCluster_updateCluster_cases st.points i j 0 with h | h
    · exact Or.inl h
    · exact Or.inr (Or.inl h)
  · simp only [STDBSCAN.expand_cluster]
    rcases getCluster_expandLoop st.eps1 st.eps2 st.min_pts (st.cluster_id + 1)
      (updateCluster st.points i ((st.cluster_id + 1 : ℕ) : Int))
      (st.get_neighbors i) j with h | h
    · rcases getCluster_updateCluster_cases st.points i j
        ((st.cluster_id + 1 : ℕ) : Int) with h2 | h2
      · exact Or.inl (h.trans h2)
      · exact Or.inr (Or.inr (h.trans h2))
    · exact Or.inr (Or.inr h)

theorem getCluster_fitStep_pos (st : STDBSCAN) (i j : ℕ) (c : Int)
    (hc : 1 ≤ c) (hj : getCluster st.points j = c) :
    getCluster (fitStep st i).points j = c := by
  simp only [fitStep]
  split_ifs with hskip hnoise
  · exact hj
  · push_neg at hskip
    have hne : j ≠ i := by
      intro he
      rw [he, hskip] at hj
      omega
    exact (getCluster_updateCluster_ne st.points i j 0 hne).trans hj
  · push_neg at hskip
    have hne : j ≠ i := by
      intro he
      rw [he, hskip] at hj
      omega
    simp only [STDBSCAN.expand_cluster]
    exact getCluster_expandLoop_pos st.eps1 st.eps2 st.min_pts (st.cluster_id + 1)
      _ _ j c hc
      ((getCluster_updateCluster_ne st.points i j _ hne).trans hj)

theorem getCluster_fitStep_self (st : STDBSCAN) (i : ℕ) (h : i < st.points.length) :
    getCluster (fitStep st i).points i ≠ -1 := by
  simp only [fitStep]
  split_ifs with hskip hnoise
  · exact hskip
  · rw [getCluster_updateCluster_self st.points i 0 h]
    decide
  · simp only [STDBSCAN.expand_cluster]
    rcases getCluster_expandLoop st.eps1 st.eps2 st.min_pts (st.cluster_id + 1)
      (updateCluster st.points i ((st.cluster_id + 1 : ℕ) : Int))
      (st.get_neighbors i) i with hcase | hcase
    · rw [hcase, getCluster_updateCluster_self st.points i _ h]
      omega
    · rw [hcase]
      omega

theorem fitLoop_exit (n : ℕ) (st : STDBSCAN) (i : ℕ) (h : ¬ i < n) :
    fitLoop n st i = st := by
  rw [fitLoop.eq_def]
  simp only [dif_neg h]

theorem fitLoop_step (n : ℕ) (st : STDBSCAN) (i : ℕ) (h : i < n) :
    fitLoop n st i = fitLoop n (fitStep st i) (i + 1) := by
  rw [fitLoop.eq_def]
  simp only [dif_pos h]

theorem fitLoop_eps1 (n : ℕ) (st : STDBSCAN) (i : ℕ) :
    (fitLoop n st i).eps1 = st.eps1 := by
  induction st, i using fitLoop.induct n with
  | case1 st i h ih => rw [fitLoop_step n st i h, ih, fitStep_eps1]
  | case2 st i h => rw [fitLoop_exit n st i h]

theorem fitLoop_eps2 (n : ℕ) (st : STDBSCAN) (i : ℕ) :
    (fitLoop n st i).eps2 = st.eps2 := by
  induction st, i using fitLoop.induct n with
  | case1 st i h ih => rw [fitLoop_step n st i h, ih, fitStep_eps2]
  | case2 st i h => rw [fitLoop_exit n st i h]

theorem fitLoop_min_pts (n : ℕ) (st : STDBSCAN) (i : ℕ) :
    (fitLoop n st i).min_pts = st.min_pts := by
  induction st, i using fitLoop.induct n with
  | case1 st i h ih => rw [fitLoop_step n st i h, ih, fitStep_min_pts]
  | case2 st i h => rw [fitLoop_exit n st i h]

theorem map_stripCluster_fitLoop (n : ℕ) (st : STDBSCAN) (i : ℕ) :
    (fitLoop n st i).points.map stripCluster = st.points.map stripCluster := by
  induction st, i using fitLoop.induct n with
  | case1 st i h ih =>
    rw [fitLoop_step n st i h, ih, map_stripCluster_fitStep]
  | case2 st i h => rw [fitLoop_exit n st i h]

theorem length_fitLoop (n : ℕ) (st : STDBSCAN) (i : ℕ) :
    (fitLoop n st i).points.length = st.points.length := by
  have h := congrArg List.length (map_stripCluster_fitLoop n st i)
  simpa using h

theorem getCluster_fitLoop_pos (n : ℕ) (st : STDBSCAN) (i j : ℕ) (c : Int)
    (hc : 1 ≤ c) (hj : getCluster st.points j = c) :
    getCluster (fitLoop n st i).points j = c := by
  induction st, i using fitLoop.induct n with
  | case1 st i h ih =>
    rw [fitLoop_step n st i h]
    exact ih (getCluster_fitStep_pos st i j c hc hj)
  | case2 st i h =>
    rw [fitLoop_exit n st i h]
    exact hj

theorem fitLoop_nonneg (n : ℕ) (st : STDBSCAN) (i : ℕ)
    (hn : n = st.points.length)
    (hwf : ∀ j, getCluster st.points j = -1 ∨ 0 ≤ getCluster st.points j)
    (hpre : ∀ j, j < i → 0 ≤ getCluster st.points j) :
    ∀ j, j < (fitLoop n st i).points.length → 0 ≤ getCluster (fitLoop n st i).points j := by
  induction st, i using fitLoop.induct n with
  | case1 st i h ih =>
    rw [fitLoop_step n st i h]
    refine ih (by rw [hn, length_fitStep]) ?_ ?_
    · intro j
      rcases getCluster_fitStep_cases st i j with hcase | hcase | hcase
      · rw [hcase]
        exact hwf j
      · rw [hcase]
        exact Or.inr (by omega)
      · rw [hcase]
        exact Or.inr (by omega)
    · intro j hj
      rcases Nat.lt_or_ge j i with hji | hji
      · rcases getCluster_fitStep_cases st i j with hcase | hcase | hcase
        · rw [hcase]
          exact hpre j hji
        · rw [hcase]
        · rw [hcase]
          omega
      · have hji2 : j = i := by omega
        subst hji2
        have hne := getCluster_fitStep_self st j (by omega)
        rcases getCluster_fitStep_cases st j j with hcase | hcase | hcase
        · rcases hwf j with hw | hw
          · rw [hcase] at hne
            exact absurd hw hne
          · rw [hcase]
            exact hw
        · rw [hcase]
        · rw [hcase]
          omega
  | case2 st i h =>
    rw [fitLoop_exit n st i h]
    intro j hj
    exact hpre j (by omega)

theorem entryMem_clustersInsert (c : Int) (i : ℕ) :
    ∀ (acc : List (Int × List ℕ)) (c2 : Int) (j : ℕ),
    entryMem (clustersInsert acc c i) c2 j ↔
      entryMem acc c2 j ∨ (c2 = c ∧ j = i) := by
  intro acc
  induction acc with
  | nil =>
    intro c2 j
    constructor
    · rintro ⟨l2, hmem, hj⟩
      rcases List.mem_singleton.mp hmem with h
      rw [Prod.mk.injEq] at h
      obtain ⟨rfl, rfl⟩ := h
      exact Or.inr ⟨rfl, List.mem_singleton.mp hj⟩
    · rintro (⟨l2, hmem, hj⟩ | ⟨hc2, hji⟩)
      · simp at hmem
      · exact ⟨[i], by rw [hc2]; exact List.mem_singleton.mpr rfl,
          by rw [hji]; exact List.mem_singleton.mpr rfl⟩
  | cons hd rest ih =>
    intro c2 j
    obtain ⟨c0, l⟩ := hd
    by_cases hc0 : c0 = c
    · subst hc0
      rw [show clustersInsert ((c0, l) :: rest) c0 i = (c0, l ++ [i]) :: rest from by
        simp [clustersInsert]]
      constructor
      · rintro ⟨l2, hmem, hj⟩
        rcases List.mem_cons.mp hmem with heq | hmem0
        · rw [Prod.mk.injEq] at heq
          obtain ⟨rfl, rfl⟩ := heq
          rcases List.mem_append.mp hj with hj0 | hj0
          · exact Or.inl ⟨l, List.mem_cons_self _ _, hj0⟩
          · exact Or.inr ⟨rfl, List.mem_singleton.mp hj0⟩
        · exact Or.inl ⟨l2, List.mem_cons_of_mem _ hmem0, hj⟩
      · rintro (⟨l2, hmem, hj⟩ | ⟨hc2, hji⟩)
        · rcases List.mem_cons.mp hmem with heq | hmem0
          · rw [Prod.mk.injEq] at heq
            obtain ⟨he1, he2⟩ := heq
            refine ⟨l ++ [i], by rw [he1]; exact List.mem_cons_self _ _,
              List.mem_append.mpr (Or.inl ?_)⟩
            rw [← he2]
            exact hj
          · exact ⟨l2, List.mem_cons_of_mem _ hmem0, hj⟩
        · exact ⟨l ++ [i], by rw [hc2]; exact List.mem_cons_self _ _,
            List.mem_append.mpr
              (Or.inr (by rw [hji]; exact List.mem_singleton.mpr rfl))⟩
    · rw [show clustersInsert ((c0, l) :: rest) c i = (c0, l) :: clustersInsert rest c i from by
        simp [clustersInsert, hc0]]
      constructor
      · rintro ⟨l2, hmem, hj⟩
        rcases List.mem_cons.mp hmem with heq | hmem0
        · rw [Prod.mk.injEq] at heq
          obtain ⟨he1, he2⟩ := heq
          exact Or.inl ⟨l, by rw [he1]; exact List.mem_cons_self _ _, by rw [← he2]; exact hj⟩
        · rcases (ih c2 j).mp ⟨l2, hmem0, hj⟩ with ⟨l3, hm3, hj3⟩ | hr
          · exact Or.inl ⟨l3, List.mem_cons_of_mem _ hm3, hj3⟩
          · exact Or.inr hr
      · rintro (⟨l2, hmem, hj⟩ | hr)
        · rcases List.mem_cons.mp hmem with heq | hmem0
          · rw [Prod.mk.injEq] at heq
            obtain ⟨he1, he2⟩ := heq
            exact ⟨l, by rw [he1]; exact List.mem_cons_self _ _, by rw [← he2]; exact hj⟩
          · obtain ⟨l3, hm3, hj3⟩ := (ih c2 j).mpr (Or.inl ⟨l2, hmem0, hj⟩)
            exact ⟨l3, List.mem_cons_of_mem _ hm3, hj3⟩
        · obtain ⟨l3, hm3, hj3⟩ := (ih c2 j).mpr (Or.inr hr)
          exact ⟨l3, List.mem_cons_of_mem _ hm3, hj3⟩

theorem entryMem_clustersGo (pts : List STPoint) : ∀ (i : ℕ)
    (acc : List (Int × List ℕ)) (c : Int) (j : ℕ),
    entryMem (clustersGo pts i acc) c j ↔
      entryMem acc c j ∨ ∃ k, k < pts.length ∧ j = i + k ∧
        (pts.getD k dfltPoint).cluster = c := by
  induction pts with
  | nil =>
    intro i acc c j
    simp [clustersGo]
  | cons p rest ih =>
    intro i acc c j
    rw [show clustersGo (p :: rest) i acc =
      clustersGo rest (i + 1) (clustersInsert acc p.cluster i) from rfl, ih,
      entryMem_clustersInsert]
    constructor
    · rintro ((hacc | ⟨rfl, rfl⟩) | ⟨k, hk, rfl, hc⟩)
      · exact Or.inl hacc
      · exact Or.inr ⟨0, by simp, by omega, rfl⟩
      · exact Or.inr ⟨k + 1, by simpa using Nat.succ_lt_succ hk, by omega, by simpa using hc⟩
    · rintro (hacc | ⟨k, hk, rfl, hc⟩)
      · exact Or.inl (Or.inl hacc)
      · cases k with
        | zero => exact Or.inl (Or.inr ⟨by simpa using hc.symm, by omega⟩)
        | succ k0 =>
          exact Or.inr ⟨k0, by simpa using Nat.lt_of_succ_lt_succ hk, by omega,
            by simpa using hc⟩

theorem entryMem_get_clusters (st : STDBSCAN) (c : Int) (j : ℕ) :
    entryMem st.get_clusters c j ↔
      j < st.points.length ∧ getCluster st.points j = c := by
  rw [STDBSCAN.get_clusters, entryMem_clustersGo]
  constructor
  · rintro (⟨l, hmem, _⟩ | ⟨k, hk, rfl, hc⟩)
    · simp at hmem
    · exact ⟨by simpa using hk, by simpa [getCluster] using hc⟩
  · rintro ⟨hj, hc⟩
    exact Or.inr ⟨j, hj, by omega, hc⟩

theorem fit_eq (st : STDBSCAN) (data : List STPoint) :
    st.fit data = fitLoop data.length
      { eps1 := st.eps1, eps2 := st.eps2, min_pts := st.min_pts,
        points := data.map (fun p => { p with cluster := -1 }), cluster_id := 0 } 0 := by
  rw [STDBSCAN.fit]
  simp only [List.length_map]

theorem fit_eps1 (st : STDBSCAN) (data : List STPoint) :
    (st.fit data).eps1 = st.eps1 := by
  rw [fit_eq, fitLoop_eps1]

theorem fit_eps2 (st : STDBSCAN) (data : List STPoint) :
    (st.fit data).eps2 = st.eps2 := by
  rw [fit_eq, fitLoop_eps2]

theorem fit_min_pts (st : STDBSCAN) (data : List STPoint) :
    (st.fit data).min_pts = st.min_pts := by
  rw [fit_eq, fitLoop_min_pts]

theorem map_stripCluster_fit (st : STDBSCAN) (data : List STPoint) :
    (st.fit data).points.map stripCluster = data.map stripCluster := by
  rw [fit_eq, map_stripCluster_fitLoop]
  simp only [List.map_map]
  rfl

theorem length_fit (st : STDBSCAN) (data : List STPoint) :
    (st.fit data).points.length = data.length := by
  have h := congrArg List.length (map_stripCluster_fit st data)
  simpa using h

theorem getCluster_resetMap (data : List STPoint) (j : ℕ) :
    getCluster (data.map (fun p => { p with cluster := -1 })) j =
      if j < data.length then -1 else 0 := by
  by_cases h : j < data.length
  · rw [if_pos h, getCluster, List.getD_eq_getElem?_getD, List.getElem?_map,
      List.getElem?_eq_getElem h]
    rfl
  · rw [if_neg h, getCluster, List.getD_eq_getElem?_getD, List.getElem?_map,
      List.getElem?_eq_none (by omega)]
    rfl

theorem fit_labels_nonneg (st : STDBSCAN) (data : List STPoint) :
    ∀ j, j < (st.fit data).points.length →
      0 ≤ getCluster (st.fit data).points j := by
  rw [fit_eq]
  apply fitLoop_nonneg
  · simp
  · intro j
    rw [getCluster_resetMap]
    by_cases h : j < data.length
    · rw [if_pos h]
      exact Or.inl rfl
    · rw [if_neg h]
      exact Or.inr (by omega)
  · intro j hj
    omega

theorem stripCluster_inj_fields {p q : STPoint} (h : stripCluster p = stripCluster q) :
    p.id = q.id ∧ p.lat = q.lat ∧ p.lon = q.lon ∧ p.time = q.time ∧
      p.value = q.value := by
  simp only [stripCluster, STPoint.mk.injEq, and_true] at h
  exact h

theorem getD_fields_of_map_stripCluster :
    ∀ (l1 l2 : List STPoint), l1.map stripCluster = l2.map stripCluster → ∀ j,
      (l1.getD j dfltPoint).id = (l2.getD j dfltPoint).id ∧
      (l1.getD j dfltPoint).lat = (l2.getD j dfltPoint).lat ∧
      (l1.getD j dfltPoint).lon = (l2.getD j dfltPoint).lon ∧
      (l1.getD j dfltPoint).time = (l2.getD j dfltPoint).time ∧
      (l1.getD j dfltPoint).value = (l2.getD j dfltPoint).value := by
  intro l1
  induction l1 with
  | nil =>
    intro l2 h j
    cases l2 with
    | nil => exact ⟨rfl, rfl, rfl, rfl, rfl⟩
    | cons q r2 => simp at h
  | cons p r ih =>
    intro l2 h j
    cases l2 with
    | nil => simp at h
    | cons q r2 =>
      simp only [List.map_cons, List.cons.injEq] at h
      obtain ⟨hpq, hr⟩ := h
      cases j with
      | zero => exact stripCluster_inj_fields hpq
      | succ j0 => exact ih r2 hr j0

/-- Claim C10: `fit` (with its inner call to the cluster expansion) mutates
only the `cluster` field of the points: after `fit` returns, the point list
has the same image under `stripCluster` as the input, and in particular every
point's `id`, `lat`, `lon`, `time` and `value` are unchanged at each index. -/
theorem fit_frame (st : STDBSCAN) (data : List STPoint) :
    (st.fit data).points.map stripCluster = data.map stripCluster ∧
    ∀ j, ((st.fit data).points.getD j dfltPoint).id = (data.getD j dfltPoint).id ∧
      ((st.fit data).points.getD j dfltPoint).lat = (data.getD j dfltPoint).lat ∧
      ((st.fit data).points.getD j dfltPoint).lon = (data.getD j dfltPoint).lon ∧
      ((st.fit data).points.getD j dfltPoint).time = (data.getD j dfltPoint).time ∧
      ((st.fit data).points.getD j dfltPoint).value = (data.getD j dfltPoint).value :=
  ⟨map_stripCluster_fit st data,
    fun j => getD_fields_of_map_stripCluster _ _ (map_stripCluster_fit st data) j⟩

/-- Claim C3: the neighborhood query returns exactly the indices `j` distinct
from `i` whose haversine spatial distance from point `i` is at most `eps1`
and whose absolute temporal distance is at most `eps2` (both conditions
conjointly); the center index `i` is never a member of its own neighborhood. -/
theorem get_neighbors_spec (st : STDBSCAN) (i j : ℕ) :
    (j ∈ st.get_neighbors i ↔
      j < st.points.length ∧ j ≠ i ∧
        haversine_distance (st.points.getD i dfltPoint).lat
          (st.points.getD i dfltPoint).lon
          (st.points.getD j dfltPoint).lat (st.points.getD j dfltPoint).lon ≤ st.eps1 ∧
        temporal_distance (st.points.getD i dfltPoint).time
          (st.points.getD j dfltPoint).time ≤ st.eps2) ∧
    i ∉ st.get_neighbors i := by
  refine ⟨mem_get_neighbors st i j, fun hmem => ?_⟩
  rcases (mem_get_neighbors st i i).mp hmem with ⟨_, hne, _⟩
  exact hne rfl

theorem get_neighbors_spec_witness :
    (0 : ℕ) ∉ (STDBSCAN.init 1 1 1).get_neighbors 0 :=
  (get_neighbors_spec (STDBSCAN.init 1 1 1) 0 0).2

/-- Claim C2: after `fit` returns, every point's label is either 0 (noise) or
a positive cluster id, and the buckets of `get_clusters` partition the index
set: index `j` lies in the bucket of label `c` exactly when `j` is an input
index whose final label is `c`; hence buckets of distinct labels are pairwise
disjoint and the union of all buckets is exactly the set of input indices. -/
theorem fit_partition (st : STDBSCAN) (data : List STPoint) :
    (∀ j, j < (st.fit data).points.length →
      getCluster (st.fit data).points j = 0 ∨
        1 ≤ getCluster (st.fit data).points j) ∧
    (∀ c j, entryMem (st.fit data).get_clusters c j ↔
      j < (st.fit data).points.length ∧ getCluster (st.fit data).points j = c) ∧
    (∀ c c2 j, entryMem (st.fit data).get_clusters c j →
      entryMem (st.fit data).get_clusters c2 j → c = c2) := by
  refine ⟨?_, ?_, ?_⟩
  · intro j hj
    have h := fit_labels_nonneg st data j hj
    omega
  · intro c j
    exact entryMem_get_clusters (st.fit data) c j
  · intro c c2 j h1 h2
    have e1 := (entryMem_get_clusters _ c j).mp h1
    have e2 := (entryMem_get_clusters _ c2 j).mp h2
    rw [← e1.2, ← e2.2]

theorem fit_partition_witness :
    getCluster ((STDBSCAN.init 1 1 1).fit [dfltPoint]).points 0 = 0 ∨
      1 ≤ getCluster ((STDBSCAN.init 1 1 1).fit [dfltPoint]).points 0 :=
  (fit_partition (STDBSCAN.init 1 1 1) [dfltPoint]).1 0 (by simp [length_fit])

/-- Claim C4: during a run, labels only move forward.  Across any remaining
portion of the expansion loop and of the main fit loop, a point whose label
is a positive cluster id keeps exactly that label (it is never reset to
noise or unclassified, nor moved to another cluster), while a point labeled
noise (0) is either left as noise or absorbed into the current cluster `cid`
of the running expansion; once absorbed (positive), the first two parts make
the label permanent for the rest of the run. -/
theorem label_monotonic (eps1 eps2 : ℝ) (min_pts : Int) (cid n : ℕ)
    (pts : List STPoint) (queue : List ℕ) (st : STDBSCAN) (i j : ℕ) (c : Int) :
    (1 ≤ c → getCluster pts j = c →
      getCluster (expandLoop eps1 eps2 min_pts cid pts queue) j = c) ∧
    (1 ≤ c → getCluster st.points j = c →
      getCluster (fitLoop n st i).points j = c) ∧
    (getCluster pts j = 0 →
      getCluster (expandLoop eps1 eps2 min_pts cid pts queue) j = 0 ∨
        getCluster (expandLoop eps1 eps2 min_pts cid pts queue) j = (cid : Int)) := by
  refine ⟨fun hc hj => getCluster_expandLoop_pos eps1 eps2 min_pts cid pts queue j c hc hj,
    fun hc hj => getCluster_fitLoop_pos n st i j c hc hj, fun hj => ?_⟩
  rcases getCluster_expandLoop eps1 eps2 min_pts cid pts queue j with h | h
  · exact Or.inl (h.trans hj)
  · exact Or.inr h

theorem label_monotonic_witness :
    getCluster (expandLoop 1 1 1 1 [⟨0, 0, 0, 0, 0, 1⟩] []) 0 = 1 :=
  (label_monotonic 1 1 1 1 0 [⟨0, 0, 0, 0, 0, 1⟩] [] (STDBSCAN.init 1 1 1) 0 0 1).1
    (by decide) rfl

theorem resetMap_eq_of_strip (d1 d2 : List STPoint)
    (h : d1.map stripCluster = d2.map stripCluster) :
    d1.map (fun p => { p with cluster := -1 }) =
      d2.map (fun p => { p with cluster := -1 }) := by
  have e1 : d1.map (fun p => { p with cluster := -1 }) =
      (d1.map stripCluster).map (fun p => { p with cluster := -1 }) := by
    rw [List.map_map]
    rfl
  have e2 : d2.map (fun p => { p with cluster := -1 }) =
      (d2.map stripCluster).map (fun p => { p with cluster := -1 }) := by
    rw [List.map_map]
    rfl
  rw [e1, e2, h]

/-- Claim C5: `fit` is deterministic and idempotent.  Two engines with the
same `eps1`, `eps2` and `min_pts` (their stored point lists and cluster
counters may differ arbitrarily, since `fit` resets them) produce identical
labeled points and identical cluster counters on inputs that agree up to
their incoming cluster labels; and calling `fit` again on the points
produced by a first `fit` reproduces exactly the same labeled points. -/
theorem fit_deterministic (st1 st2 : STDBSCAN) (d1 d2 : List STPoint)
    (he1 : st1.eps1 = st2.eps1) (he2 : st1.eps2 = st2.eps2)
    (hmp : st1.min_pts = st2.min_pts)
    (hd : d1.map stripCluster = d2.map stripCluster) :
    (st1.fit d1).points = (st2.fit d2).points ∧
    (st1.fit d1).cluster_id = (st2.fit d2).cluster_id ∧
    ((st1.fit d1).fit (st1.fit d1).points).points = (st1.fit d1).points := by
  have hlen : d1.length = d2.length := by
    have hc := congrArg List.length hd
    simpa using hc
  have hmain : st1.fit d1 = st2.fit d2 := by
    rw [fit_eq, fit_eq, he1, he2, hmp, hlen, resetMap_eq_of_strip d1 d2 hd]
  have hself : (st1.fit d1).fit (st1.fit d1).points = st1.fit d1 := by
    rw [fit_eq (st1.fit d1) (st1.fit d1).points, length_fit st1 d1,
      resetMap_eq_of_strip _ _ (map_stripCluster_fit st1 d1),
      fit_eps1, fit_eps2, fit_min_pts, fit_eq st1 d1]
  exact ⟨congrArg STDBSCAN.points hmain, congrArg STDBSCAN.cluster_id hmain,
    congrArg STDBSCAN.points hself⟩

theorem fit_deterministic_witness :
    ((STDBSCAN.init 1 1 1).fit [dfltPoint]).points =
      ((STDBSCAN.mk 1 1 1 [dfltPoint] 5).fit [dfltPoint]).points :=
  (fit_deterministic (STDBSCAN.init 1 1 1) (STDBSCAN.mk 1 1 1 [dfltPoint] 5)
    [dfltPoint] [dfltPoint] rfl rfl rfl rfl).1

/-- The haversine intermediate quantity `a` of `haversine_distance`. -/
def havA (lat1 lon1 lat2 lon2 : ℝ) : ℝ :=
  Real.sin (radians (lat2 - lat1) / 2) ^ 2 +
    Real.cos (radians lat1) * Real.cos (radians lat2) *
      Real.sin (radians (lon2 - lon1) / 2) ^ 2

theorem haversine_havA (lat1 lon1 lat2 lon2 : ℝ) :
    haversine_distance lat1 lon1 lat2 lon2 =
      6371.0 * (2 * arctan2 (Real.sqrt (havA lat1 lon1 lat2 lon2))
        (Real.sqrt (1 - havA lat1 lon1 lat2 lon2))) := rfl

theorem arctan2_zero_of_pos (x : ℝ) (hx : 0 < x) : arctan2 0 x = 0 := by
  rw [arctan2, if_pos hx, zero_div, Real.arctan_zero]

theorem radians_zero : radians 0 = 0 := by
  simp [radians]

theorem haversine_self (lat lon : ℝ) : haversine_distance lat lon lat lon = 0 := by
  rw [haversine_havA]
  have hA : havA lat lon lat lon = 0 := by
    rw [havA, sub_self, sub_self, radians_zero, zero_div, Real.sin_zero]
    ring
  rw [hA, Real.sqrt_zero, sub_zero, Real.sqrt_one, arctan2_zero_of_pos 1 one_pos]
  ring

theorem haversine_symm (lat1 lon1 lat2 lon2 : ℝ) :
    haversine_distance lat1 lon1 lat2 lon2 =
      haversine_distance lat2 lon2 lat1 lon1 := by
  rw [haversine_havA, haversine_havA]
  have hA : havA lat2 lon2 lat1 lon1 = havA lat1 lon1 lat2 lon2 := by
    rw [havA, havA]
    have h1 : radians (lat1 - lat2) = -(radians (lat2 - lat1)) := by
      rw [radians, radians]
      ring
    have h2 : radians (lon1 - lon2) = -(radians (lon2 - lon1)) := by
      rw [radians, radians]
      ring
    rw [h1, h2, neg_div, neg_div, Real.sin_neg, Real.sin_neg]
    ring
  rw [hA]

theorem haversine_eq_zero_iff_havA (lat1 lon1 lat2 lon2 : ℝ)
    (hA : 0 ≤ havA lat1 lon1 lat2 lon2) :
    haversine_distance lat1 lon1 lat2 lon2 = 0 ↔ havA lat1 lon1 lat2 lon2 = 0 := by
  rw [haversine_havA]
  constructor
  · intro h
    have h2 : arctan2 (Real.sqrt (havA lat1 lon1 lat2 lon2))
        (Real.sqrt (1 - havA lat1 lon1 lat2 lon2)) = 0 := by
      rcases mul_eq_zero.mp h with hbad | h3
      · norm_num at hbad
      · rcases mul_eq_zero.mp h3 with hbad | h4
        · norm_num at hbad
        · exact h4
    by_cases hlt : havA lat1 lon1 lat2 lon2 < 1
    · have hx : 0 < Real.sqrt (1 - havA lat1 lon1 lat2 lon2) :=
        Real.sqrt_pos.mpr (by linarith)
      rw [arctan2, if_pos hx] at h2
      have h3 : Real.sqrt (havA lat1 lon1 lat2 lon2) /
          Real.sqrt (1 - havA lat1 lon1 lat2 lon2) = 0 :=
        Real.arctan_injective (h2.trans Real.arctan_zero.symm)
      rcases div_eq_zero_iff.mp h3 with h4 | h4
      · exact (Real.sqrt_eq_zero hA).mp h4
      · exact absurd h4 hx.ne'
    · exfalso
      push_neg at hlt
      have hx0 : Real.sqrt (1 - havA lat1 lon1 lat2 lon2) = 0 :=
        Real.sqrt_eq_zero'.mpr (by linarith)
      have hy : 0 < Real.sqrt (havA lat1 lon1 lat2 lon2) :=
        Real.sqrt_pos.mpr (by linarith)
      rw [arctan2, if_neg (by rw [hx0]; exact lt_irrefl 0),
        if_neg (by rw [hx0]; exact lt_irrefl 0), if_pos hy] at h2
      have hpi := Real.pi_pos
      linarith
  · intro h0
    rw [h0, Real.sqrt_zero, sub_zero, Real.sqrt_one, arctan2_zero_of_pos 1 one_pos]
    ring

theorem radians_eq_zero_iff (x : ℝ) : radians x = 0 ↔ x = 0 := by
  rw [radians]
  constructor
  · intro h
    rcases div_eq_zero_iff.mp h with h2 | h2
    · rcases mul_eq_zero.mp h2 with h3 | h3
      · exact h3
      · exact absurd h3 Real.pi_ne_zero
    · norm_num at h2
  · intro h
    rw [h]
    ring

theorem radians_half_lt_pi (x : ℝ) (h : |x| < 360) : |radians x / 2| < Real.pi := by
  have he : radians x / 2 = x * (Real.pi / 360) := by
    rw [radians]
    ring
  rw [he, abs_mul, abs_of_pos (by positivity : (0:ℝ) < Real.pi / 360)]
  have hpi := Real.pi_pos
  nlinarith [abs_nonneg x]

theorem sin_radians_half_eq_zero (x : ℝ) (hb : |x| < 360)
    (h : Real.sin (radians x / 2) = 0) : x = 0 := by
  have hlt := radians_half_lt_pi x hb
  rw [abs_lt] at hlt
  have h0 : radians x / 2 = 0 :=
    (Real.sin_eq_zero_iff_of_lt_of_lt hlt.1 hlt.2).mp h
  have h1 : radians x = 0 := by linarith
  exact (radians_eq_zero_iff x).mp h1

theorem cos_radians_pos (lat : ℝ) (h1 : -90 < lat) (h2 : lat < 90) :
    0 < Real.cos (radians lat) := by
  apply Real.cos_pos_of_mem_Ioo
  have hpi := Real.pi_pos
  constructor
  · rw [radians]
    nlinarith
  · rw [radians]
    nlinarith

theorem haversine_zero_ident (lat1 lon1 lat2 lon2 : ℝ)
    (ha1 : -90 < lat1) (ha2 : lat1 < 90) (hb1 : -90 < lat2) (hb2 : lat2 < 90)
    (hlon : |lon1 - lon2| < 360)
    (h : haversine_distance lat1 lon1 lat2 lon2 = 0) :
    lat1 = lat2 ∧ lon1 = lon2 := by
  have hc1 := cos_radians_pos lat1 ha1 ha2
  have hc2 := cos_radians_pos lat2 hb1 hb2
  have hcc : 0 < Real.cos (radians lat1) * Real.cos (radians lat2) := mul_pos hc1 hc2
  have hA0 : 0 ≤ havA lat1 lon1 lat2 lon2 :=
    add_nonneg (sq_nonneg _) (mul_nonneg hcc.le (sq_nonneg _))
  have hA := (haversine_eq_zero_iff_havA lat1 lon1 lat2 lon2 hA0).mp h
  rw [havA] at hA
  have hq1 := sq_nonneg (Real.sin (radians (lat2 - lat1) / 2))
  have hq2 := sq_nonneg (Real.sin (radians (lon2 - lon1) / 2))
  have ht1 : Real.sin (radians (lat2 - lat1) / 2) ^ 2 = 0 := by nlinarith
  have ht2 : Real.sin (radians (lon2 - lon1) / 2) ^ 2 = 0 := by nlinarith
  have hs1 : Real.sin (radians (lat2 - lat1) / 2) = 0 :=
    (pow_eq_zero_iff (by norm_num)).mp ht1
  have hs2 : Real.sin (radians (lon2 - lon1) / 2) = 0 :=
    (pow_eq_zero_iff (by norm_num)).mp ht2
  have hd1 : lat2 - lat1 = 0 := by
    refine sin_radians_half_eq_zero _ ?_ hs1
    rw [abs_lt]
    constructor <;> linarith
  have hd2 : lon2 - lon1 = 0 := by
    refine sin_radians_half_eq_zero _ ?_ hs2
    rw [abs_sub_comm] at hlon
    linarith [hlon]
  constructor <;> linarith

/-- Claim C9 (amended): the haversine distance is symmetric for all inputs
and is zero whenever the two coordinate pairs are identical; the converse
(zero implies identical coordinates) holds on latitudes strictly inside
(-90, 90) with longitudes less than 360 degrees apart, but not on the whole
stated domain (see the pole counterexample). -/
theorem haversine_symm_zero_iff (lat1 lon1 lat2 lon2 : ℝ) :
    haversine_distance lat1 lon1 lat2 lon2 =
      haversine_distance lat2 lon2 lat1 lon1 ∧
    (lat1 = lat2 → lon1 = lon2 → haversine_distance lat1 lon1 lat2 lon2 = 0) ∧
    (-90 < lat1 → lat1 < 90 → -90 < lat2 → lat2 < 90 → |lon1 - lon2| < 360 →
      haversine_distance lat1 lon1 lat2 lon2 = 0 → lat1 = lat2 ∧ lon1 = lon2) := by
  refine ⟨haversine_symm lat1 lon1 lat2 lon2, fun h1 h2 => ?_,
    fun ha1 ha2 hb1 hb2 hlon h => haversine_zero_ident lat1 lon1 lat2 lon2
      ha1 ha2 hb1 hb2 hlon h⟩
  rw [h1, h2]
  exact haversine_self lat2 lon2

theorem haversine_symm_zero_iff_witness :
    haversine_distance 0 0 0 0 = 0 ∧ ((0:ℝ) = 0 ∧ (0:ℝ) = 0) :=
  ⟨(haversine_symm_zero_iff 0 0 0 0).2.1 rfl rfl,
    (haversine_symm_zero_iff 0 0 0 0).2.2 (by norm_num) (by norm_num) (by norm_num)
      (by norm_num) (by norm_num)
      ((haversine_symm_zero_iff 0 0 0 0).2.1 rfl rfl)⟩

/-- Claim C9 counterexample: at the north pole the haversine distance
between the distinct coordinate pairs (90, 0) and (90, 90) is zero, although
both pairs lie in the stated domain (lat in [-90, 90], lon in [-180, 180]);
so "zero iff identical coordinate pairs" fails on that domain. -/
theorem haversine_zero_iff_counterexample :
    haversine_distance 90 0 90 90 = 0 ∧ ¬ ((90:ℝ) = 90 ∧ (0:ℝ) = 90) ∧
      (-90 ≤ (90:ℝ) ∧ (90:ℝ) ≤ 90 ∧ -180 ≤ (0:ℝ) ∧ (0:ℝ) ≤ 180 ∧
        -180 ≤ (90:ℝ) ∧ (90:ℝ) ≤ 180) := by
  refine ⟨?_, by norm_num, by norm_num⟩
  have hA : havA 90 0 90 90 = 0 := by
    rw [havA]
    have h90 : radians 90 = Real.pi / 2 := by
      rw [radians]
      ring
    rw [sub_self, radians_zero, zero_div, Real.sin_zero, h90, Real.cos_pi_div_two]
    ring
  exact (haversine_eq_zero_iff_havA 90 0 90 90 (by simp [hA])).mpr hA

theorem neighborsGo_congr (eps1 eps2 : ℝ) (c1 c2 : STPoint) (point_id : ℕ)
    (hlat : c1.lat = c2.lat) (hlon : c1.lon = c2.lon) (htime : c1.time = c2.time) :
    ∀ (l1 l2 : List STPoint) (i0 : ℕ), l1.map stripCluster = l2.map stripCluster →
      neighborsGo eps1 eps2 c1 point_id i0 l1 =
        neighborsGo eps1 eps2 c2 point_id i0 l2 := by
  intro l1
  induction l1 with
  | nil =>
    intro l2 i0 h
    cases l2 with
    | nil => rfl
    | cons q r2 => simp at h
  | cons p r ih =>
    intro l2 i0 h
    cases l2 with
    | nil => simp at h
    | cons q r2 =>
      simp only [List.map_cons, List.cons.injEq] at h
      obtain ⟨hpq, hr⟩ := h
      obtain ⟨_, hplat, hplon, hptime, _⟩ := stripCluster_inj_fields hpq
      rw [neighborsGo_cons, neighborsGo_cons, hlat, hlon, htime, hplat, hplon, hptime,
        ih r2 (i0 + 1) hr]

theorem getNeighborsAux_congr (eps1 eps2 : ℝ) (l1 l2 : List STPoint) (point_id : ℕ)
    (h : l1.map stripCluster = l2.map stripCluster) :
    getNeighborsAux eps1 eps2 l1 point_id = getNeighborsAux eps1 eps2 l2 point_id := by
  rw [getNeighborsAux, getNeighborsAux]
  have hc := getD_fields_of_map_stripCluster l1 l2 h point_id
  exact neighborsGo_congr eps1 eps2 _ _ point_id hc.2.1 hc.2.2.1 hc.2.2.2.1 l1 l2 0 h

theorem fitLoop_all_noise (n : ℕ) (st : STDBSCAN) (i : ℕ)
    (hn : n = st.points.length)
    (hnb : ∀ j, j < st.points.length →
      ((getNeighborsAux st.eps1 st.eps2 st.points j).length : Int) < st.min_pts)
    (hsuf : ∀ j, i ≤ j → j < st.points.length → getCluster st.points j = -1)
    (hpre : ∀ j, j < i → getCluster st.points j = 0) :
    ∀ j, j < (fitLoop n st i).points.length →
      getCluster (fitLoop n st i).points j = 0 := by
  induction st, i using fitLoop.induct n with
  | case1 st i h ih =>
    rw [fitLoop_step n st i h]
    have hi : i < st.points.length := by omega
    have hlab : getCluster st.points i = -1 := hsuf i (Nat.le_refl i) hi
    have hfs : fitStep st i = { st with points := updateCluster st.points i 0 } := by
      simp only [fitStep, STDBSCAN.get_neighbors]
      rw [if_neg (fun hne => hne hlab), if_pos (hnb i hi)]
    refine ih ?_ ?_ ?_ ?_
    · rw [hfs]
      simpa [length_updateCluster] using hn
    · intro j hj
      rw [hfs] at hj ⊢
      simp only [length_updateCluster] at hj
      simp only
      rw [getNeighborsAux_congr st.eps1 st.eps2 _ st.points j
        (map_stripCluster_updateCluster st.points i 0)]
      exact hnb j hj
    · intro j hle hj
      rw [hfs] at hj ⊢
      simp only [length_updateCluster] at hj
      simp only
      rw [getCluster_updateCluster_ne st.points i j 0 (by omega)]
      exact hsuf j (by omega) hj
    · intro j hj
      rw [hfs]
      simp only
      rcases Nat.lt_or_ge j i with hji | hji
      · rw [getCluster_updateCluster_ne st.points i j 0 (by omega)]
        exact hpre j hji
      · have hje : j = i := by omega
        subst hje
        exact getCluster_updateCluster_self st.points j 0 hi
  | case2 st i h =>
    rw [fitLoop_exit n st i h]
    intro j hj
    exact hpre j (by omega)

theorem map_cluster_of_three (pts : List STPoint) (hlen : pts.length = 3)
    (h : ∀ j, j < 3 → getCluster pts j = 0) :
    pts.map (fun p => p.cluster) = [0, 0, 0] := by
  match pts, hlen with
  | [a, b, c], _ =>
    have h0 : a.cluster = 0 := h 0 (by omega)
    have h1 : b.cluster = 0 := h 1 (by omega)
    have h2 : c.cluster = 0 := h 2 (by omega)
    simp [h0, h1, h2]

theorem fit_three_all_noise (pts0 : List STPoint) (cid0 : ℕ) (p0 p1 p2 : STPoint) :
    ((STDBSCAN.mk 5 0 3 pts0 cid0).fit [p0, p1, p2]).points.map
      (fun p => p.cluster) = [0, 0, 0] := by
  rw [fit_eq]
  have hlen3 : ([p0, p1, p2].map
      (fun p => { p with cluster := -1 })).length = 3 := by simp
  refine map_cluster_of_three _ ?_ ?_
  · rw [length_fitLoop]
    simpa using hlen3
  · intro j hj
    refine fitLoop_all_noise _ _ 0 ?_ ?_ ?_ ?_ j ?_
    · simp
    · intro k hk
      simp only at hk ⊢
      have hlt := getNeighborsAux_length_lt 5 0
        ([p0, p1, p2].map (fun p => { p with cluster := -1 })) k (by omega)
      rw [hlen3] at hlt
      exact_mod_cast hlt
    · intro k _ hk
      rw [getCluster_resetMap]
      simp only [List.length_cons, List.length_nil] at hk ⊢
      rw [if_pos (by omega)]
    · intro k hk
      omega
    · rw [length_fitLoop]
      simpa using hj

/-- Claim C1 counterexample: three coincident points (pairwise haversine
distance 0, hence within 1 km of each other, all at time 0), clustered with
`eps_space = 5`, `eps_time = 0`, `min_pts = 3`, all end labeled 0 (noise):
the run produces 0 clusters and 3 noise points, not one cluster of size 3,
because each point's neighborhood excludes the point itself and therefore
has only 2 < 3 members. -/
theorem scenarioA_counterexample :
    (haversine_distance 0 0 0 0 ≤ 1 ∧
      (STPoint.mk 0 0 0 0 0 (-1)).time = 0 ∧
      (STPoint.mk 1 0 0 0 0 (-1)).time = 0 ∧
      (STPoint.mk 2 0 0 0 0 (-1)).time = 0) ∧
    ((STDBSCAN.mk 5 0 3 [] 0).fit
      [STPoint.mk 0 0 0 0 0 (-1), STPoint.mk 1 0 0 0 0 (-1),
        STPoint.mk 2 0 0 0 0 (-1)]).points.map (fun p => p.cluster) = [0, 0, 0] ∧
    ¬ ∃ c : Int, 1 ≤ c ∧
      ((STDBSCAN.mk 5 0 3 [] 0).fit
        [STPoint.mk 0 0 0 0 0 (-1), STPoint.mk 1 0 0 0 0 (-1),
          STPoint.mk 2 0 0 0 0 (-1)]).points.map (fun p => p.cluster) = [c, c, c] := by
  have hmap := fit_three_all_noise [] 0 (STPoint.mk 0 0 0 0 0 (-1))
    (STPoint.mk 1 0 0 0 0 (-1)) (STPoint.mk 2 0 0 0 0 (-1))
  refine ⟨⟨by rw [haversine_self]; norm_num, rfl, rfl, rfl⟩, hmap, ?_⟩
  rintro ⟨c, hc, he⟩
  rw [hmap] at he
  simp only [List.cons.injEq] at he
  omega

/-- Claim C1 (amended): for 3 points pairwise within 1 km of each other, all
at time 0, running fit with `eps_space = 5`, `eps_time = 0`, `min_pts = 3`
labels all 3 points 0 (noise), yielding 0 clusters and 3 noise points:
each point's neighborhood excludes the point itself, so it has at most
2 < min_pts members and no point is a core point. -/
theorem scenarioA_all_noise (pts0 : List STPoint) (cid0 : ℕ) (p0 p1 p2 : STPoint)
    (hd01 : haversine_distance p0.lat p0.lon p1.lat p1.lon ≤ 1)
    (hd02 : haversine_distance p0.lat p0.lon p2.lat p2.lon ≤ 1)
    (hd12 : haversine_distance p1.lat p1.lon p2.lat p2.lon ≤ 1)
    (ht0 : p0.time = 0) (ht1 : p1.time = 0) (ht2 : p2.time = 0) :
    ((STDBSCAN.mk 5 0 3 pts0 cid0).fit [p0, p1, p2]).points.map
      (fun p => p.cluster) = [0, 0, 0] :=
  fit_three_all_noise pts0 cid0 p0 p1 p2

theorem scenarioA_all_noise_witness :
    ((STDBSCAN.mk 5 0 3 [] 0).fit
      [STPoint.mk 0 0 0 0 0 0, STPoint.mk 1 0 0 0 0 0,
        STPoint.mk 2 0 0 0 0 0]).points.map (fun p => p.cluster) = [0, 0, 0] :=
  scenarioA_all_noise [] 0 (STPoint.mk 0 0 0 0 0 0) (STPoint.mk 1 0 0 0 0 0)
    (STPoint.mk 2 0 0 0 0 0)
    (by rw [haversine_self]; norm_num) (by rw [haversine_self]; norm_num)
    (by rw [haversine_self]; norm_num) rfl rfl rfl

theorem fit_single_expand (eps1 eps2 : ℝ) (pts0 : List STPoint) (cid0 : ℕ)
    (q : STPoint) :
    ((STDBSCAN.mk eps1 eps2 0 pts0 cid0).fit [q]).points =
      [{ q with cluster := 1 }] := by
  rw [fit_eq]
  dsimp only
  simp only [List.length_cons, List.length_nil, List.map_cons, List.map_nil]
  rw [fitLoop_step 1 _ 0 (by norm_num)]
  have hstep : fitStep (STDBSCAN.mk eps1 eps2 0 [{ q with cluster := -1 }] 0) 0 =
      STDBSCAN.mk eps1 eps2 0 [{ q with cluster := 1 }] 1 := by
    simp only [fitStep, STDBSCAN.get_neighbors]
    rw [if_neg (fun hne => hne rfl)]
    have hnb : getNeighborsAux
        (STDBSCAN.mk eps1 eps2 0 [{ q with cluster := -1 }] 0).eps1
        (STDBSCAN.mk eps1 eps2 0 [{ q with cluster := -1 }] 0).eps2
        (STDBSCAN.mk eps1 eps2 0 [{ q with cluster := -1 }] 0).points 0 = [] := rfl
    rw [hnb]
    rw [if_neg (by norm_num)]
    simp only [STDBSCAN.expand_cluster]
    rw [expandLoop_nil]
    rfl
  rw [hstep, fitLoop_exit 1 _ 1 (by norm_num)]

/-- Claim C6 counterexample: the constructor performs no validation.  With
`min_pts = 0` (which the claim says must be rejected as a configuration
error) the engine is constructed silently, stores the parameters unchanged,
and `fit` then proceeds to process a point and label it into cluster 1; the
same holds for non-positive `eps1` and `eps2`, which are stored verbatim. -/
theorem init_no_validation_counterexample :
    (STDBSCAN.init 5 1 0).min_pts = 0 ∧
    (STDBSCAN.init (-5) (-1) 0).eps1 = -5 ∧
    (STDBSCAN.init (-5) (-1) 0).eps2 = -1 ∧
    ((STDBSCAN.init 5 1 0).fit [STPoint.mk 0 0 0 0 0 (-1)]).points.map
      (fun p => p.cluster) = [1] := by
  refine ⟨rfl, rfl, rfl, ?_⟩
  rw [show STDBSCAN.init 5 1 0 = STDBSCAN.mk 5 1 0 [] 0 from rfl,
    fit_single_expand 5 1 [] 0 (STPoint.mk 0 0 0 0 0 (-1))]
  rfl

/-- Claim C6 (amended): constructing the engine with `min_pts < 1`,
`eps_space <= 0` or `eps_time <= 0` is silently accepted: the constructor
stores the parameters unchanged (there is no validation and no
`ConfigurationError` path in the code), and `fit` afterwards processes every
point normally, classifying each one as noise or into a cluster. -/
theorem init_permissive (eps1 eps2 : ℝ) (min_pts : Int) (data : List STPoint)
    (hbad : min_pts < 1 ∨ eps1 ≤ 0 ∨ eps2 ≤ 0) :
    (STDBSCAN.init eps1 eps2 min_pts).eps1 = eps1 ∧
    (STDBSCAN.init eps1 eps2 min_pts).eps2 = eps2 ∧
    (STDBSCAN.init eps1 eps2 min_pts).min_pts = min_pts ∧
    ((STDBSCAN.init eps1 eps2 min_pts).fit data).points.length = data.length ∧
    (∀ j, j < data.length →
      getCluster ((STDBSCAN.init eps1 eps2 min_pts).fit data).points j = 0 ∨
        1 ≤ getCluster ((STDBSCAN.init eps1 eps2 min_pts).fit data).points j) := by
  refine ⟨rfl, rfl, rfl, length_fit _ data, fun j hj => ?_⟩
  have h := fit_labels_nonneg (STDBSCAN.init eps1 eps2 min_pts) data j
    (by rw [length_fit]; exact hj)
  omega

theorem init_permissive_witness :
    ((STDBSCAN.init 5 1 0).fit [dfltPoint]).points.length = 1 ∧
      (getCluster ((STDBSCAN.init 5 1 0).fit [dfltPoint]).points 0 = 0 ∨
        1 ≤ getCluster ((STDBSCAN.init 5 1 0).fit [dfltPoint]).points 0) :=
  ⟨by simpa using (init_permissive 5 1 0 [dfltPoint] (by norm_num)).2.2.2.1,
    (init_permissive 5 1 0 [dfltPoint] (by norm_num)).2.2.2.2 0 (by norm_num)⟩

theorem timeOf_updateCluster (pts : List STPoint) (i : ℕ) (c : Int) (j : ℕ) :
    timeOf (updateCluster pts i c) j = timeOf pts j :=
  (getD_fields_of_map_stripCluster _ _
    (map_stripCluster_updateCluster pts i c) j).2.2.2.1

theorem timeOf_expandLoop (eps1 eps2 : ℝ) (min_pts : Int) (cid : ℕ)
    (pts : List STPoint) (queue : List ℕ) (j : ℕ) :
    timeOf (expandLoop eps1 eps2 min_pts cid pts queue) j = timeOf pts j :=
  (getD_fields_of_map_stripCluster _ _
    (map_stripCluster_expandLoop eps1 eps2 min_pts cid pts queue) j).2.2.2.1

theorem timeOf_fitStep (st : STDBSCAN) (i j : ℕ) :
    timeOf (fitStep st i).points j = timeOf st.points j :=
  (getD_fields_of_map_stripCluster _ _ (map_stripCluster_fitStep st i) j).2.2.2.1

theorem timeOf_fitLoop (n : ℕ) (st : STDBSCAN) (i j : ℕ) :
    timeOf (fitLoop n st i).points j = timeOf st.points j :=
  (getD_fields_of_map_stripCluster _ _ (map_stripCluster_fitLoop n st i) j).2.2.2.1

theorem eq_time_of_temporal_le_zero {t1 t2 : ℝ}
    (h : temporal_distance t1 t2 ≤ 0) : t1 = t2 := by
  rw [temporal_distance] at h
  have h2 : |t1 - t2| = 0 := le_antisymm h (abs_nonneg _)
  have h3 := abs_eq_zero.mp h2
  linarith

theorem mem_getNeighborsAux_time_eq (eps1 : ℝ) (pts : List STPoint)
    (point_id q : ℕ) (hq : q ∈ getNeighborsAux eps1 0 pts point_id) :
    timeOf pts q = timeOf pts point_id := by
  rcases (mem_getNeighborsAux eps1 0 pts point_id q).mp hq with ⟨_, _, _, ht⟩
  exact (eq_time_of_temporal_le_zero ht).symm

theorem expandLoop_time_inv (eps1 : ℝ) (min_pts : Int) (cid : ℕ) (t0 : ℝ)
    (pts : List STPoint) (queue : List ℕ)
    (hlab : ∀ j, getCluster pts j = (cid : Int) → timeOf pts j = t0)
    (hqueue : ∀ q, q ∈ queue → timeOf pts q = t0) :
    ∀ j, getCluster (expandLoop eps1 0 min_pts cid pts queue) j = (cid : Int) →
      timeOf pts j = t0 := by
  refine expandLoop_rec eps1 0 min_pts cid
    (fun pts queue =>
      (∀ j, getCluster pts j = (cid : Int) → timeOf pts j = t0) →
      (∀ q, q ∈ queue → timeOf pts q = t0) →
      ∀ j, getCluster (expandLoop eps1 0 min_pts cid pts queue) j = (cid : Int) →
        timeOf pts j = t0)
    ?_ ?_ ?_ ?_ ?_ pts queue hlab hqueue
  · intro pts h1 _ j hj
    rw [expandLoop_nil] at hj
    exact h1 j hj
  · intro pts current rest h0 ih h1 h2 j hj
    rw [expandLoop_noise_step _ _ _ _ _ _ _ h0] at hj
    have hres := ih ?_ ?_ j hj
    · rwa [timeOf_updateCluster] at hres
    · intro j2 hj2
      rw [timeOf_updateCluster]
      by_cases hji : j2 = current
      · subst hji
        exact h2 j2 (List.mem_cons_self _ _)
      · rw [getCluster_updateCluster_ne pts current j2 _ hji] at hj2
        exact h1 j2 hj2
    · intro q hq
      rw [timeOf_updateCluster]
      exact h2 q (List.mem_cons_of_mem _ hq)
  · intro pts current rest h0 hne ih h1 h2 j hj
    rw [expandLoop_skip_step _ _ _ _ _ _ _ h0 hne] at hj
    exact ih h1 (fun q hq => h2 q (List.mem_cons_of_mem _ hq)) j hj
  · intro pts current rest h1c hmp ih h1 h2 j hj
    rw [expandLoop_core_step _ _ _ _ _ _ _ h1c hmp] at hj
    have htc : timeOf pts current = t0 := h2 current (List.mem_cons_self _ _)
    have hres := ih ?_ ?_ j hj
    · rwa [timeOf_updateCluster] at hres
    · intro j2 hj2
      rw [timeOf_updateCluster]
      by_cases hji : j2 = current
      · subst hji
        exact htc
      · rw [getCluster_updateCluster_ne pts current j2 _ hji] at hj2
        exact h1 j2 hj2
    · intro q hq
      rw [timeOf_updateCluster]
      rcases List.mem_append.mp hq with hq0 | hq0
      · exact h2 q (List.mem_cons_of_mem _ hq0)
      · have hq1 := List.mem_of_mem_filter hq0
        have := mem_getNeighborsAux_time_eq eps1
          (updateCluster pts current (cid : Int)) current q hq1
        rw [timeOf_updateCluster, timeOf_updateCluster] at this
        rw [this]
        exact htc
  · intro pts current rest h1c hmp ih h1 h2 j hj
    rw [expandLoop_border_step _ _ _ _ _ _ _ h1c hmp] at hj
    have htc : timeOf pts current = t0 := h2 current (List.mem_cons_self _ _)
    have hres := ih ?_ ?_ j hj
    · rwa [timeOf_updateCluster] at hres
    · intro j2 hj2
      rw [timeOf_updateCluster]
      by_cases hji : j2 = current
      · subst hji
        exact htc
      · rw [getCluster_updateCluster_ne pts current j2 _ hji] at hj2
        exact h1 j2 hj2
    · intro q hq
      rw [timeOf_updateCluster]
      exact h2 q (List.mem_cons_of_mem _ hq)

theorem labelLe_fitStep (st : STDBSCAN) (i : ℕ)
    (h : ∀ j, getCluster st.points j ≤ (st.cluster_id : Int)) :
    ∀ j, getCluster (fitStep st i).points j ≤ ((fitStep st i).cluster_id : Int) := by
  simp only [fitStep]
  split_ifs with hskip hn
  · exact h
  · intro j
    rcases getCluster_updateCluster_cases st.points i j 0 with hc | hc <;> rw [hc]
    · exact h j
    · omega
  · intro j
    simp only [STDBSCAN.expand_cluster]
    rcases getCluster_expandLoop st.eps1 st.eps2 st.min_pts (st.cluster_id + 1)
      (updateCluster st.points i ((st.cluster_id + 1 : ℕ) : Int))
      (st.get_neighbors i) j with hc | hc
    · rcases getCluster_updateCluster_cases st.points i j
        ((st.cluster_id + 1 : ℕ) : Int) with hc2 | hc2
      · rw [hc, hc2]
        have := h j
        omega
      · rw [hc, hc2]
    · rw [hc]

theorem clusterTime_fitStep (st : STDBSCAN) (i : ℕ)
    (heps : st.eps2 = 0)
    (hle : ∀ j, getCluster st.points j ≤ (st.cluster_id : Int))
    (hct : ∀ c : Int, 1 ≤ c → ∀ j k, getCluster st.points j = c →
      getCluster st.points k = c → timeOf st.points j = timeOf st.points k) :
    ∀ c : Int, 1 ≤ c → ∀ j k, getCluster (fitStep st i).points j = c →
      getCluster (fitStep st i).points k = c →
      timeOf (fitStep st i).points j = timeOf (fitStep st i).points k := by
  intro c hc j k hj hk
  rw [timeOf_fitStep, timeOf_fitStep]
  revert hj hk
  simp only [fitStep]
  split_ifs with hskip hn
  · exact hct c hc j k
  · intro hj hk
    rcases getCluster_updateCluster_cases st.points i j 0 with hcj | hcj <;>
      rw [hcj] at hj
    · rcases getCluster_updateCluster_cases st.points i k 0 with hck | hck <;>
        rw [hck] at hk
      · exact hct c hc j k hj hk
      · omega
    · omega
  · intro hj hk
    simp only [STDBSCAN.expand_cluster] at hj hk
    by_cases hcnew : c = ((st.cluster_id + 1 : ℕ) : Int)
    · subst hcnew
      have hinv := expandLoop_time_inv st.eps1 st.min_pts (st.cluster_id + 1)
        (timeOf st.points i)
        (updateCluster st.points i ((st.cluster_id + 1 : ℕ) : Int))
        (st.get_neighbors i) ?_ ?_
      · have hj2 := hinv j ?_
        · have hk2 := hinv k ?_
          · rw [timeOf_updateCluster] at hj2 hk2
            rw [hj2, hk2]
          · rwa [heps] at hk
        · rwa [heps] at hj
      · intro j2 hj2
        rw [timeOf_updateCluster]
        by_cases hji : j2 = i
        · subst hji
          rfl
        · rw [getCluster_updateCluster_ne st.points i j2 _ hji] at hj2
          have := hle j2
          omega
      · intro q hq
        rw [timeOf_updateCluster]
        rw [STDBSCAN.get_neighbors, heps] at hq
        exact mem_getNeighborsAux_time_eq st.eps1 st.points i q hq
    · rcases getCluster_expandLoop st.eps1 st.eps2 st.min_pts (st.cluster_id + 1)
        (updateCluster st.points i ((st.cluster_id + 1 : ℕ) : Int))
        (st.get_neighbors i) j with hdj | hdj
      · rcases getCluster_updateCluster_cases st.points i j
          ((st.cluster_id + 1 : ℕ) : Int) with hej | hej
        · rcases getCluster_expandLoop st.eps1 st.eps2 st.min_pts (st.cluster_id + 1)
            (updateCluster st.points i ((st.cluster_id + 1 : ℕ) : Int))
            (st.get_neighbors i) k with hdk | hdk
          · rcases getCluster_updateCluster_cases st.points i k
              ((st.cluster_id + 1 : ℕ) : Int) with hek | hek
            · rw [hdj, hej] at hj
              rw [hdk, hek] at hk
              exact hct c hc j k hj hk
            · rw [hdk, hek] at hk
              exact absurd hk.symm hcnew
          · rw [hdk] at hk
            exact absurd hk.symm hcnew
        · rw [hdj, hej] at hj
          exact absurd hj.symm hcnew
      · rw [hdj] at hj
        exact absurd hj.symm hcnew

theorem clusterTime_fitLoop (n : ℕ) (st : STDBSCAN) (i : ℕ)
    (heps : st.eps2 = 0)
    (hle : ∀ j, getCluster st.points j ≤ (st.cluster_id : Int))
    (hct : ∀ c : Int, 1 ≤ c → ∀ j k, getCluster st.points j = c →
      getCluster st.points k = c → timeOf st.points j = timeOf st.points k) :
    ∀ c : Int, 1 ≤ c → ∀ j k, getCluster (fitLoop n st i).points j = c →
      getCluster (fitLoop n st i).points k = c →
      timeOf (fitLoop n st i).points j = timeOf (fitLoop n st i).points k := by
  induction st, i using fitLoop.induct n with
  | case1 st i h ih =>
    rw [fitLoop_step n st i h]
    exact ih ((fitStep_eps2 st i).trans heps) (labelLe_fitStep st i hle)
      (clusterTime_fitStep st i heps hle hct)
  | case2 st i h =>
    rw [fitLoop_exit n st i h]
    exact hct

/-- Claim C8: when `eps_time = 0`, any two points that end a `fit` run with
the same positive cluster id have exactly the same time coordinate: the
neighborhood predicate then requires identical times, and cluster membership
propagates only along neighborhoods, so each cluster carries a single time. -/
theorem eps_time_zero_same_time (eps1 : ℝ) (min_pts : Int) (pts0 : List STPoint)
    (cid0 : ℕ) (data : List STPoint) (j k : ℕ) (c : Int) (hc : 1 ≤ c)
    (hj : getCluster ((STDBSCAN.mk eps1 0 min_pts pts0 cid0).fit data).points j = c)
    (hk : getCluster ((STDBSCAN.mk eps1 0 min_pts pts0 cid0).fit data).points k = c) :
    timeOf ((STDBSCAN.mk eps1 0 min_pts pts0 cid0).fit data).points j =
      timeOf ((STDBSCAN.mk eps1 0 min_pts pts0 cid0).fit data).points k := by
  rw [fit_eq] at hj hk ⊢
  refine clusterTime_fitLoop data.length _ 0 rfl ?_ ?_ c hc j k hj hk
  · intro j2
    rw [getCluster_resetMap]
    split_ifs <;> omega
  · intro c2 hc2 j2 k2 hj2 _
    rw [getCluster_resetMap] at hj2
    split_ifs at hj2 <;> omega

theorem eps_time_zero_same_time_witness :
    timeOf ((STDBSCAN.mk 1 0 0 [] 0).fit [dfltPoint]).points 0 =
      timeOf ((STDBSCAN.mk 1 0 0 [] 0).fit [dfltPoint]).points 0 :=
  eps_time_zero_same_time 1 0 [] 0 [dfltPoint] 0 0 1 (by norm_num)
    (by rw [fit_single_expand]; rfl) (by rw [fit_single_expand]; rfl)
